import Mathlib

/-!
Verification development for the Real-Time Trip Processing repository.

The embedding models:
  * the DynamoDB wire format (`AttrVal`, `Item`) used by both lambdas;
  * Python's `decimal.Decimal` string constructor and `str()` printing
    (`decParse` / `decPrint`), which `unmarshall_dynamodb_item` and
    `update_merged_item` in `src/scripts/lambda2.py` use for `N` values;
  * the keyed store (DynamoDB table) as a list of items, with the
    query / update_item / delete_item / put semantics the lambdas rely on;
  * `find_counterpart_item`, `update_merged_item`, `delete_item` and
    `lambda_handler` from `src/scripts/lambda2.py`, with boolean fault
    flags standing for the store calls raising an exception (each helper
    catches its own exceptions, which the flags make observable);
  * `batch_write_to_dynamodb` from `src/scripts/lambda1.py`, with the
    store's `batch_write_item` modelled as an oracle returning the
    `UnprocessedItems` list (or `none` for a raised exception).
-/

namespace TripProc

/-- A DynamoDB attribute value as delivered on the wire
(`{'S': ...}`, `{'N': ...}`, `{'BOOL': ...}`, `{'NULL': True}`);
`other` stands for any of the type tags the code does not handle
(`L`, `M`, `B`, `SS`, `NS`, `BS`): `unmarshall_dynamodb_item` keeps those
raw and `update_merged_item` skips them with a warning. -/
inductive AttrVal where
  | s (v : String)
  | n (v : String)
  | bool (v : Bool)
  | null
  | other
deriving DecidableEq

/-- A DynamoDB item: an attribute-name / value association list
(Python dicts have unique keys; lookup takes the first occurrence). -/
abbrev Item := List (String × AttrVal)

/-- First-occurrence association lookup (Python `dict.get`). -/
def lookupA : Item → String → Option AttrVal
  | [], _ => none
  | (k', v) :: t, k => if k' = k then some v else lookupA t k

/-- In-place replace-or-append assignment (Python `dict[k] = v`). -/
def setA : Item → String → AttrVal → Item
  | [], k, v => [(k, v)]
  | (k', v') :: t, k, v => if k' = k then (k, v) :: t else (k', v') :: setA t k v

/-- Apply a list of attribute assignments in order
(the `SET` clauses of an `UpdateExpression`). -/
def applySets (it : Item) (sets : List (String × AttrVal)) : Item :=
  sets.foldl (fun acc kv => setA acc kv.1 kv.2) it

/-! ### A model of Python `decimal.Decimal`

`lambda2.unmarshall_dynamodb_item` turns `{'N': s}` into `Decimal(s)` and
`update_merged_item` marshals it back as `{'N': str(value)}`.  A finite
`Decimal` is a sign, a coefficient digit string (leading zeros stripped,
at least one digit), and an exponent; `str` follows the IBM
to-scientific-string algorithm.  (`NaN`/`Infinity` inputs, whitespace and
underscores accepted by Python's constructor are outside the model; no
store value of this system takes those forms.) -/

def digitChars : List Char := ['0', '1', '2', '3', '4', '5', '6', '7', '8', '9']

/-- Is `c` an ASCII digit (the forms `Decimal(...)` accepts here)? -/
def isDigitC (c : Char) : Bool := c ∈ digitChars

/-- Numeric value of a digit character. -/
def digVal (c : Char) : Nat := digitChars.indexOf c

/-- Digit character of a value `< 10`. -/
def digitC (d : Nat) : Char := digitChars.getD d '0'

/-- Strip leading zeros from a coefficient, keeping at least one digit. -/
def stripZeros : List Char → List Char
  | [] => []
  | c :: t => if c = '0' ∧ t ≠ [] then stripZeros t else c :: t

/-- Split a character list at the first `e`/`E` (exponent marker). -/
def splitOnE : List Char → List Char × Option (List Char)
  | [] => ([], none)
  | c :: t =>
    if c = 'e' ∨ c = 'E' then ([], some t)
    else
      let p := splitOnE t
      (c :: p.1, p.2)

/-- Split a character list at its decimal point; fails on two points. -/
def splitDot : List Char → Option (List Char × List Char)
  | [] => some ([], [])
  | c :: t =>
    if c = '.' then if '.' ∈ t then none else some ([], t)
    else (splitDot t).map (fun p => (c :: p.1, p.2))

/-- Parse a non-empty all-digit character list as a natural number. -/
def parseNatDigits (cs : List Char) : Option Nat :=
  if cs ≠ [] ∧ cs.all isDigitC then
    some (cs.foldl (fun a c => 10 * a + digVal c) 0)
  else none

/-- Parse an exponent part: optional sign, then digits. -/
def parseExpPart : List Char → Option Int
  | '+' :: t => (parseNatDigits t).map (fun m => (m : Int))
  | '-' :: t => (parseNatDigits t).map (fun m => -(m : Int))
  | cs => (parseNatDigits cs).map (fun m => (m : Int))

/-- A finite Python `Decimal`: sign, coefficient digits, exponent. -/
structure Dec where
  neg : Bool
  mant : List Char
  exp : Int
deriving DecidableEq

/-- Parse a mantissa (integer and fraction digits around an optional
point), given the already-parsed exponent `e0`: the coefficient is the
concatenated digits with leading zeros stripped, the exponent drops by
the number of fraction digits. -/
def decParseMant (m : List Char) (e0 : Int) : Option Dec :=
  match splitDot m with
  | some ipfp =>
    if ipfp.1 ++ ipfp.2 ≠ [] ∧ (ipfp.1 ++ ipfp.2).all isDigitC then
      some ⟨false, stripZeros (ipfp.1 ++ ipfp.2), e0 - ipfp.2.length⟩
    else none
  | none => none

/-- Parse the unsigned part of a `Decimal` literal. -/
def decParseCore (cs : List Char) : Option Dec :=
  match splitOnE cs with
  | (m, none) => decParseMant m 0
  | (m, some es) =>
    match parseExpPart es with
    | some e0 => decParseMant m e0
    | none => none

/-- `Decimal(s)` on a finite numeric literal. -/
def decParse (str : String) : Option Dec :=
  match str.data with
  | [] => none
  | c :: t =>
    if c = '+' then decParseCore t
    else if c = '-' then (decParseCore t).map (fun d => ⟨true, d.mant, d.exp⟩)
    else decParseCore (c :: t)

/-- Decimal digit characters of a natural number, most significant
first; `fuel` bounds the recursion depth (any `fuel > m` is enough,
since `m / 10 < m` for `m ≥ 10`). -/
def natToCharsAux : Nat → Nat → List Char
  | 0, _ => []
  | fuel + 1, m =>
    if m < 10 then [digitC m]
    else natToCharsAux fuel (m / 10) ++ [digitC (m % 10)]

/-- Decimal digit characters of a natural number, most significant first. -/
def natToChars (m : Nat) : List Char := natToCharsAux (m + 1) m

/-- The unsigned part of `str()` of a `Dec`: the to-scientific-string
algorithm used by Python's `Decimal.__str__` — plain notation when the
exponent is `≤ 0` and the adjusted exponent is `≥ -6`, scientific
notation (with an explicitly signed adjusted exponent) otherwise. -/
def decPrintBody (d : Dec) : List Char :=
  let c := d.mant
  let clen : Int := c.length
  let adj : Int := d.exp + clen - 1
  if d.exp ≤ 0 ∧ -6 ≤ adj then
    if d.exp = 0 then c
    else if 0 < clen + d.exp then
      c.take (clen + d.exp).toNat ++ '.' :: c.drop (clen + d.exp).toNat
    else
      '0' :: '.' :: (List.replicate (-(clen + d.exp)).toNat '0' ++ c)
  else
    (if c.length = 1 then c else c.take 1 ++ '.' :: c.drop 1) ++
      'E' :: (if adj < 0 then '-' :: natToChars adj.natAbs
              else '+' :: natToChars adj.natAbs)

/-- `str()` of a `Dec`, as characters: minus sign, then the body. -/
def decPrintChars (d : Dec) : List Char :=
  (if d.neg then ['-'] else []) ++ decPrintBody d

/-- `str()` of a `Dec`. -/
def decPrint (d : Dec) : String := ⟨decPrintChars d⟩

/-- Well-formed `Dec`: a non-empty all-digit coefficient with no leading
zero (except the single digit `0`).  Every value `decParse` produces, and
every `N` value the lambdas write, has this form. -/
def Dec.Canon (d : Dec) : Prop :=
  d.mant ≠ [] ∧ d.mant.all isDigitC = true ∧
    (d.mant = ['0'] ∨ d.mant.head? ≠ some '0')

instance (d : Dec) : Decidable d.Canon := by
  unfold Dec.Canon; infer_instance

/-- Python truthiness of `Decimal`: zero iff the coefficient is zero. -/
def decIsZero (d : Dec) : Bool := d.mant.all (fun c => c = '0')

/-! ### The unmarshalled values of lambda2

`unmarshall_dynamodb_item` maps `S` to a Python `str`, `N` to
`Decimal(v)` — keeping the raw string when that conversion raises — `BOOL`
to a Python `bool`, `NULL` to `None`, and any other tag to the raw wire
value.  Instead of introducing a separate Python-value type, the model
keeps the wire value and interprets the Python-level operations the
handler performs on the unmarshalled dict directly on it. -/

/-- Python `==` between an unmarshalled value and a string literal:
only a `str` can equal a `str`, and an `N` value whose `Decimal`
conversion failed was kept as its raw string. -/
def pyEqS (v : AttrVal) (t : String) : Bool :=
  match v with
  | .s v' => v' = t
  | .n v' => if (decParse v').isSome then false else v' = t
  | _ => false

/-- Python `==` between a `dict.get` result and a string literal:
`None` (an absent key) equals no string; otherwise as `pyEqS`. -/
def pyEqSo (v : Option AttrVal) (t : String) : Bool :=
  match v with
  | some w => pyEqS w t
  | none => false

/-- Python truthiness of an unmarshalled value (`if not x`):
`''` and `None` and `False` and `Decimal(0)` are falsy; an unhandled wire
value is kept as its (non-empty) raw dict, hence truthy. -/
def attrTruthy (v : AttrVal) : Bool :=
  match v with
  | .s v' => v' ≠ ""
  | .n v' =>
    match decParse v' with
    | some d => ¬ decIsZero d
    | none => v' ≠ ""
  | .bool b => b
  | .null => false
  | .other => true

/-- Round-trip of one attribute value through
`unmarshall_dynamodb_item` and the marshalling in `update_merged_item`:
* a string comes back as `S`;
* a `Decimal` is written back as `{'N': str(value)}`; an `N` whose
  conversion failed was kept as a raw string, so it is written as `S`;
* a `BOOL` becomes a Python `bool`, which `isinstance(value, (int, float))`
  catches first (Python `bool` subclasses `int`), and
  `Decimal(str(True))` raises, so the attribute is skipped (`none`);
* `NULL` became `None` and is written back as `{'NULL': True}`;
* an unhandled wire value is skipped with a warning (`none`). -/
def remarshal : AttrVal → Option AttrVal
  | .s v => some (.s v)
  | .n v =>
    match decParse v with
    | some d => some (.n (decPrint d))
    | none => some (.s v)
  | .bool _ => none
  | .null => some .null
  | .other => none

/-! ### lambda2's merge attribute list and UpdateExpression -/

/-- The fixed `attributes_to_merge` dict of `update_merged_item`
(insertion order of the Python dict literal). -/
def attributes_to_merge : List String :=
  ["dropoff_datetime", "rate_code", "payment_type", "fare_amount",
   "trip_distance", "tip_amount", "trip_type", "passenger_count", "status"]

/-- The `SET` assignments `update_merged_item` builds from `data_to_add`:
for each name of `attributes_to_merge` present in the data, the
marshalled value (skipping values whose marshalling is skipped). -/
def buildSets (data : Item) : List (String × AttrVal) :=
  attributes_to_merge.filterMap (fun k =>
    (lookupA data k).bind (fun v => (remarshal v).map (fun w => (k, w))))

/-! ### The keyed store -/

/-- `begins_with` of a DynamoDB `KeyConditionExpression`. -/
def beginsWith (p str : String) : Bool := p.data.isPrefixOf str.data

/-- The store: the table's items, in arbitrary (insertion) order.  The
primary key of an item is its `PK`/`SK` attribute pair.  DynamoDB keeps
at most one item per key and returns query results in `SK` order; the
theorems below assume at most one item matches each query, which makes
the list order immaterial. -/
abbrev Store := List Item

/-- Does the item have primary key `(pk, sk)`? -/
def hasKeyB (pk sk : String) (it : Item) : Bool :=
  decide (lookupA it "PK" = some (.s pk)) &&
    decide (lookupA it "SK" = some (.s sk))

/-- Does the item fall in partition `pid` with `SK` beginning `pre`
(the counterpart query's key condition)? -/
def isSide (pid pre : String) (it : Item) : Bool :=
  decide (lookupA it "PK" = some (.s pid)) &&
    (match lookupA it "SK" with
     | some (.s sk) => beginsWith pre sk
     | _ => false)

/-- `.get('X', {}).get('S')`: the `S` payload of an attribute, if any. -/
def getS (it : Item) (k : String) : Option String :=
  match lookupA it k with
  | some (.s v) => some v
  | _ => none

/-- DynamoDB `update_item` with `SET` clauses: updates the item at the
key in place; when no item has the key, creates one holding the key
attributes plus the set attributes. -/
def Store.updateItem (st : Store) (pk sk : String)
    (sets : List (String × AttrVal)) : Store :=
  if st.any (hasKeyB pk sk) then
    st.map (fun it => if hasKeyB pk sk it then applySets it sets else it)
  else
    st ++ [applySets [("PK", .s pk), ("SK", .s sk)] sets]

/-- DynamoDB `delete_item`: removes the item at the key; deleting an
absent key succeeds as a no-op. -/
def Store.deleteItem (st : Store) (pk sk : String) : Store :=
  st.filter (fun it => ! hasKeyB pk sk it)

/-- DynamoDB `put_item`: replaces the item at the row's key, or appends. -/
def Store.putItem (st : Store) (row : Item) : Store :=
  match getS row "PK", getS row "SK" with
  | some pk, some sk =>
    if st.any (hasKeyB pk sk) then
      st.map (fun it => if hasKeyB pk sk it then row else it)
    else st ++ [row]
  | _, _ => st

/-! ### lambda2: the reconciliation driver -/

/-- A store operation issued by the driver (observable side effects). -/
inductive Op where
  | query (pid pre : String)
  | upd (pk sk : String)
  | del (pk sk : String)
deriving DecidableEq

/-- A primary-key dictionary as passed to the low-level
`boto3.client('dynamodb')` calls.  `new_item_key` (lambda2.py:273-276) is
built with `{'S': ...}` AttributeValue wrappers — `typed` — and is valid.
`counterpart_item_key` (lambda2.py:289-292) is built from the bare
`.get('PK', {}).get('S')` strings — `plain` — which the client rejects
with a `ParamValidationError` before any request reaches the store; the
exception is raised inside the calling helper and caught by its
`except`. -/
inductive DKey where
  | typed (pk sk : String)
  | plain (pk sk : String)
deriving DecidableEq

/-- Fault flags: `q`/`u`/`d` make the store raise on the query, the
update, resp. the delete of the current notification (each of
`find_counterpart_item`, `update_merged_item`, `delete_item` catches the
exception itself and logs it). -/
structure Faults where
  q : Bool
  u : Bool
  d : Bool
deriving DecidableEq

/-- No store faults. -/
def noF : Faults := ⟨false, false, false⟩

/-- The update call raises (and is caught inside `update_merged_item`). -/
def uF : Faults := ⟨false, true, false⟩

/-- The query raises (and is caught inside `find_counterpart_item`). -/
def qF : Faults := ⟨true, false, false⟩

/-- `find_counterpart_item` of lambda2: computes the opposite
`data_type`, queries `PK = trip_id AND begins_with(SK, ...)` with
`Limit=1`, and returns the first item or `None`; on a store exception it
returns `None` as well (the `except` branch). -/
def find_counterpart_item (qfail : Bool) (st : Store) (trip_id : String)
    (current_dt : AttrVal) : Option Item × List Op :=
  let cdt := if pyEqS current_dt "trip_start" then "trip_end" else "trip_start"
  let pre := cdt ++ "#"
  if qfail then (none, [.query trip_id pre])
  else (st.find? (isSide trip_id pre), [.query trip_id pre])

/-- `update_merged_item` of lambda2: builds the `SET` clauses from
`data_to_add`, returns without a store call when there are none, and
otherwise issues `update_item`; an exception — a `ParamValidationError`
on a `plain` key, or a store fault on a `typed` one — is caught and
logged (lambda2.py:201-203), leaving the store unchanged. -/
def update_merged_item (ufail : Bool) (st : Store) (key : DKey)
    (data : Item) : Store × List Op :=
  if data = [] then (st, [])
  else
    let sets := buildSets data
    if sets = [] then (st, [])
    else
      match key with
      | .plain pk sk => (st, [.upd pk sk])
      | .typed pk sk =>
        if ufail then (st, [.upd pk sk])
        else (Store.updateItem st pk sk sets, [.upd pk sk])

/-- `delete_item` of lambda2: issues `delete_item`; an exception — a
`ParamValidationError` on a `plain` key, or a store fault on a `typed`
one — is caught and logged (lambda2.py:230-232), leaving the store
unchanged. -/
def delete_item (dfail : Bool) (st : Store) (key : DKey) :
    Store × List Op :=
  match key with
  | .plain pk sk => (st, [.del pk sk])
  | .typed pk sk =>
    if dfail then (st, [.del pk sk])
    else (Store.deleteItem st pk sk, [.del pk sk])

/-- A change-feed `NewImage`: a decodable item, or a malformed image
whose unmarshalling raises (caught by the handler's per-record
`except`). -/
inductive Image where
  | val (it : Item)
  | bad
deriving DecidableEq

/-- A DynamoDB Stream record as consumed by `lambda_handler`. -/
structure StreamRecord where
  eventName : String
  newImage : Option Image
deriving DecidableEq

/-- The merged-and-deleted phase of the handler once the two roles are
fixed: add `status = 'completed'` to the data, update the survivor's
key, then delete the donor's key.  Exactly one of the two keys is the
well-formed `new_item_key`; the other is the `plain` counterpart key on
which the client call always raises. -/
def mergePhase (f : Faults) (st : Store) (updKey delKey : DKey)
    (data : Item) : Store × List Op :=
  let r1 :=
    if data ≠ [] then
      update_merged_item f.u st updKey (setA data "status" (.s "completed"))
    else (st, [])
  let r2 := delete_item f.d r1.1 delKey
  (r2.1, r1.2 ++ r2.2)

/-- Processing of one stream record by `lambda_handler`
(`src/scripts/lambda2.py`, lines 244-351): only `INSERT` records with a
present `NewImage` are acted on; the record is skipped when `PK`, `SK`
or `data_type` is missing or falsy; the counterpart is resolved; when it
is found (with a usable key) and the two unmarshalled `data_type` values
fit a merge role, the `trip_start` key is targeted by the update (donor
data plus `status = 'completed'`) and the `trip_end` key by the delete.
The record's own key is passed `typed` (`new_item_key`), the
counterpart's key `plain` (`counterpart_item_key`, bare strings), so
whichever of the two calls receives the counterpart key raises
`ParamValidationError` and is caught inside its helper.  `.error` is an
exception escaping to the per-record `except` of the handler's loop. -/
def processRecord (f : Faults) (st : Store) (r : StreamRecord) :
    Except Unit (Store × List Op) :=
  if r.eventName = "INSERT" then
    match r.newImage with
    | none => .ok (st, [])
    | some .bad => .error ()
    | some (.val img) =>
      match getS img "PK", getS img "SK", lookupA img "data_type" with
      | some pk, some sk, some dtv =>
        if pk = "" ∨ sk = "" ∨ attrTruthy dtv = false then .ok (st, [])
        else
          let fc := find_counterpart_item f.q st pk dtv
          match fc.1 with
          | none => .ok (st, fc.2)
          | some cp =>
            match getS cp "PK", getS cp "SK" with
            | some cpk, some csk =>
              if cpk = "" ∨ csk = "" then .ok (st, fc.2)
              else if pyEqS dtv "trip_start" = true ∧
                  pyEqSo (lookupA cp "data_type") "trip_end" = true then
                let mp := mergePhase f st (.typed pk sk) (.plain cpk csk) cp
                .ok (mp.1, fc.2 ++ mp.2)
              else if pyEqS dtv "trip_end" = true ∧
                  pyEqSo (lookupA cp "data_type") "trip_start" = true then
                let mp := mergePhase f st (.plain cpk csk) (.typed pk sk) img
                .ok (mp.1, fc.2 ++ mp.2)
              else .ok (st, fc.2)
            | _, _ => .ok (st, fc.2)
      | _, _, _ => .ok (st, [])
  else .ok (st, [])

/-- The handler's per-record loop: a record whose processing raises is
logged and the loop continues with the next record. -/
def runRecords (f : Faults) (st : Store) : List StreamRecord → Store
  | [] => st
  | r :: rs =>
    let st' :=
      match processRecord f st r with
      | .ok p => p.1
      | .error _ => st
    runRecords f st' rs

/-- The HTTP-style response `lambda_handler` returns. -/
structure LambdaResponse where
  statusCode : Nat
  body : String
deriving DecidableEq

/-- `lambda_handler` of lambda2: processes the batch and returns the
fixed success response. -/
def lambda_handler (f : Faults) (st : Store) (records : List StreamRecord) :
    Store × LambdaResponse :=
  (runRecords f st records,
   ⟨200, "DynamoDB Stream batch processing complete!"⟩)

/-- An `INSERT` stream notification whose after-image is `row` (the
change feed delivers the freshly written row as `NewImage`). -/
def mkInsert (row : Item) : StreamRecord := ⟨"INSERT", some (.val row)⟩

/-- Deliver one side of a trip: the upstream writer puts the row, then
the change feed hands its `INSERT` notification to the driver. -/
def deliverInsert (st : Store) (row : Item) : Store :=
  runRecords noF (Store.putItem st row) [mkInsert row]

/-- The completed record the driver produces from survivor and donor:
the survivor updated with the donor's mergeable attributes plus
`status = 'completed'`. -/
def mergeRows (survivor donor : Item) : Item :=
  applySets survivor (buildSets (setA donor "status" (.s "completed")))

/-! ### lambda1: the batched writer -/

/-- The retry loop of `batch_write_to_dynamodb`
(`src/scripts/lambda1.py`, lines 189-230).  `oracle` is the store's
`batch_write_item`: it receives a request of at most 25 items and
returns the `UnprocessedItems` list, or `none` when the call raises (in
which case the loop breaks).  Returns the requests issued and the items
still unprocessed on exit. -/
def bwLoop (oracle : List Item → Option (List Item)) :
    Nat → List Item → Nat → List (List Item) → List (List Item) × List Item
  | 0, pending, _, acc => (acc.reverse, pending)
  | fuel + 1, pending, retry, acc =>
    if pending = [] ∨ ¬ retry < 3 then (acc.reverse, pending)
    else
      let batch := pending.take 25
      match oracle batch with
      | none => ((batch :: acc).reverse, pending)
      | some unproc =>
        if unproc ≠ [] then bwLoop oracle fuel unproc (retry + 1) (batch :: acc)
        else bwLoop oracle fuel (pending.drop batch.length) retry (batch :: acc)

/-- `batch_write_to_dynamodb` of lambda1, with `max_retries = 3`:
starts with all items pending and no retries used.  The fuel
`4 + items.length` always outlasts the loop: an iteration either bumps
`retry` (at most 3 times, by the loop condition) or strictly shortens
the non-empty pending list, and a batch response never lengthens it
(`UnprocessedItems` is a subset of the request). -/
def batch_write_to_dynamodb (oracle : List Item → Option (List Item))
    (items : List Item) : List (List Item) × List Item :=
  bwLoop oracle (4 + items.length) items 0 []

instance {ε α : Type} [DecidableEq ε] [DecidableEq α] :
    DecidableEq (Except ε α) := fun a b =>
  match a, b with
  | .ok x, .ok y =>
    if h : x = y then isTrue (by rw [h])
    else isFalse (fun hc => h (Except.ok.inj hc))
  | .error e, .error e' =>
    if h : e = e' then isTrue (by rw [h])
    else isFalse (fun hc => h (Except.error.inj hc))
  | .ok _, .error _ => isFalse (fun hc => Except.noConfusion hc)
  | .error _, .ok _ => isFalse (fun hc => Except.noConfusion hc)

/-! ### Concrete sample data (shaped as lambda1 writes rows) -/

/-- A START row for trip `T1` as `process_kinesis_record` would write it. -/
def cRowStart : Item :=
  [("PK", .s "T1"), ("SK", .s "trip_start#2025-04-20T08:00:00"),
   ("trip_id", .s "T1"), ("data_type", .s "trip_start"),
   ("timestamp", .s "2025-04-20T08:00:00"), ("raw_data", .s "rawS"),
   ("pickup_datetime", .s "2025-04-20T08:00:00"),
   ("pickup_location_id", .n "100"), ("dropoff_location_id", .n "200"),
   ("vendor_id", .n "1"),
   ("estimated_dropoff_datetime", .s "2025-04-20T08:25:00"),
   ("estimated_fare_amount", .n "12.50")]

/-- An END row for trip `T1` as `process_kinesis_record` would write it. -/
def cRowEnd : Item :=
  [("PK", .s "T1"), ("SK", .s "trip_end#2025-04-20T08:20:00"),
   ("trip_id", .s "T1"), ("data_type", .s "trip_end"),
   ("timestamp", .s "2025-04-20T08:20:00"), ("raw_data", .s "rawE"),
   ("dropoff_datetime", .s "2025-04-20T08:20:00"),
   ("rate_code", .n "1"), ("payment_type", .n "2"),
   ("fare_amount", .n "15.75"), ("trip_distance", .n "3.5"),
   ("tip_amount", .n "2.00"), ("passenger_count", .n "2")]

/-- 26 distinct items for exercising the batched writer. -/
def c8Items : List Item :=
  (List.range 26).map (fun i => [("i", AttrVal.n (toString i))])

/-- The 26th of those items. -/
def c8Item25 : Item := [("i", AttrVal.n "25")]

/-- A store behaviour for the batched writer: a request of two or more
items has its first item reported unprocessed; smaller requests succeed
fully. -/
def c8Oracle : List Item → Option (List Item) :=
  fun b => some (if 2 ≤ b.length then b.take 1 else [])

/-! ### Association-list lemmas -/

theorem lookupA_setA (it : Item) (k : String) (v : AttrVal) (k' : String) :
    lookupA (setA it k v) k' = if k = k' then some v else lookupA it k' := by
  induction it with
  | nil => by_cases h : k = k' <;> simp [setA, lookupA, h]
  | cons hd t ih =>
    obtain ⟨a, b⟩ := hd
    by_cases hak : a = k
    · subst hak
      by_cases h : a = k' <;> simp [setA, lookupA, h]
    · by_cases h : a = k'
      · subst h
        have hka : ¬ k = a := fun hh => hak hh.symm
        simp [setA, lookupA, hak, hka]
      · simp [setA, lookupA, hak, h, ih]

theorem setA_eq_self (it : Item) (k : String) (v : AttrVal)
    (h : lookupA it k = some v) : setA it k v = it := by
  induction it with
  | nil => simp [lookupA] at h
  | cons hd t ih =>
    obtain ⟨a, b⟩ := hd
    by_cases hak : a = k
    · subst hak
      simp [lookupA] at h
      simp [setA, h]
    · simp [lookupA, hak] at h
      simp [setA, hak, ih h]

theorem lookupA_applySets_of_not_mem (it : Item)
    (sets : List (String × AttrVal)) (k : String)
    (h : ∀ p ∈ sets, p.1 ≠ k) :
    lookupA (applySets it sets) k = lookupA it k := by
  induction sets generalizing it with
  | nil => simp [applySets]
  | cons hd t ih =>
    have hhd : hd.1 ≠ k := h hd (by simp)
    have ht : ∀ p ∈ t, p.1 ≠ k := fun p hp => h p (by simp [hp])
    simp only [applySets, List.foldl_cons]
    rw [show List.foldl (fun acc kv => setA acc kv.1 kv.2) (setA it hd.1 hd.2) t =
        applySets (setA it hd.1 hd.2) t from rfl, ih _ ht, lookupA_setA]
    simp [hhd]

theorem lookupA_applySets_of_mem (sets : List (String × AttrVal))
    (k : String) (v : AttrVal) :
    ∀ it : Item, (sets.map Prod.fst).Nodup → (k, v) ∈ sets →
      lookupA (applySets it sets) k = some v := by
  induction sets with
  | nil => intro it _ h; simp at h
  | cons hd t ih =>
    intro it hnd h
    obtain ⟨a, b⟩ := hd
    simp only [List.map_cons, List.nodup_cons] at hnd
    simp only [applySets, List.foldl_cons]
    rw [show List.foldl (fun acc kv => setA acc kv.1 kv.2) (setA it a b) t =
        applySets (setA it a b) t from rfl]
    rcases List.mem_cons.mp h with heq | hmem
    · cases heq
      rw [lookupA_applySets_of_not_mem]
      · simp [lookupA_setA]
      · intro p hp hpk
        exact hnd.1 (List.mem_map.mpr ⟨p, hp, hpk⟩)
    · exact ih (setA it a b) hnd.2 hmem

theorem applySets_eq_self (it : Item) (sets : List (String × AttrVal))
    (h : ∀ p ∈ sets, lookupA it p.1 = some p.2) : applySets it sets = it := by
  induction sets with
  | nil => rfl
  | cons hd t ih =>
    simp only [applySets, List.foldl_cons]
    rw [setA_eq_self it hd.1 hd.2 (h hd (by simp))]
    exact ih (fun p hp => h p (by simp [hp]))

theorem applySets_applySets (it : Item) (sets : List (String × AttrVal))
    (hnd : (sets.map Prod.fst).Nodup) :
    applySets (applySets it sets) sets = applySets it sets :=
  applySets_eq_self _ _ (fun p hp =>
    lookupA_applySets_of_mem sets p.1 p.2 it hnd hp)

/-! ### buildSets lemmas -/

theorem mem_buildSets (data : Item) (p : String × AttrVal) :
    p ∈ buildSets data ↔
      p.1 ∈ attributes_to_merge ∧
        ∃ v, lookupA data p.1 = some v ∧ remarshal v = some p.2 := by
  obtain ⟨k, w⟩ := p
  simp only [buildSets, List.mem_filterMap, Option.bind_eq_some,
    Option.map_eq_some']
  constructor
  · rintro ⟨k', hk', v, hlk, w', hw', heq⟩
    cases heq
    exact ⟨hk', v, hlk, hw'⟩
  · rintro ⟨hk, v, hlk, hv⟩
    exact ⟨k, hk, v, hlk, w, hv, rfl⟩

theorem buildSets_keys_sublist (data : Item) :
    ((buildSets data).map Prod.fst).Sublist attributes_to_merge := by
  unfold buildSets
  generalize attributes_to_merge = l
  induction l with
  | nil => simp
  | cons a t ih =>
    simp only [List.filterMap_cons]
    cases hla : lookupA data a with
    | none => simpa using ih.cons a
    | some v =>
      cases hrv : remarshal v with
      | none => simpa [hla, hrv] using ih.cons a
      | some w => simpa [hla, hrv] using ih.cons₂ a

theorem buildSets_keys_nodup (data : Item) :
    ((buildSets data).map Prod.fst).Nodup :=
  List.Nodup.sublist (buildSets_keys_sublist data) (by decide)

theorem buildSets_key_mem (data : Item) (p : String × AttrVal)
    (h : p ∈ buildSets data) : p.1 ∈ attributes_to_merge :=
  ((mem_buildSets data p).mp h).1

theorem status_mem_buildSets (data : Item) :
    ("status", AttrVal.s "completed") ∈
      buildSets (setA data "status" (.s "completed")) := by
  rw [mem_buildSets]
  refine ⟨by decide, .s "completed", ?_, rfl⟩
  rw [lookupA_setA]
  simp

theorem lookupA_mergeSets_of_not_merge (it data : Item) (k : String)
    (hk : k ∉ attributes_to_merge) :
    lookupA (applySets it (buildSets data)) k = lookupA it k :=
  lookupA_applySets_of_not_mem _ _ _ (fun p hp hpk =>
    hk (hpk ▸ buildSets_key_mem data p hp))

/-! ### Digit-character lemmas -/

theorem digVal_digitC (d : Nat) (h : d < 10) : digVal (digitC d) = d := by
  interval_cases d <;> rfl

theorem isDigitC_digitC (d : Nat) (h : d < 10) : isDigitC (digitC d) = true := by
  interval_cases d <;> rfl

theorem isDigitC_spec (c : Char) (h : isDigitC c = true) :
    c ≠ '+' ∧ c ≠ '-' ∧ c ≠ '.' ∧ c ≠ 'e' ∧ c ≠ 'E' := by
  simp only [isDigitC, digitChars, List.mem_cons, List.mem_singleton,
    decide_eq_true_eq, List.not_mem_nil, or_false] at h
  rcases h with rfl | rfl | rfl | rfl | rfl | rfl | rfl | rfl | rfl | rfl <;>
    exact ⟨by decide, by decide, by decide, by decide, by decide⟩

/-! ### Splitter lemmas -/

theorem splitOnE_noE (l : List Char) (h : ∀ c ∈ l, c ≠ 'e' ∧ c ≠ 'E') :
    splitOnE l = (l, none) := by
  induction l with
  | nil => rfl
  | cons c t ih =>
    have hc := h c (by simp)
    simp [splitOnE, hc.1, hc.2, ih (fun c' hc' => h c' (by simp [hc']))]

theorem splitOnE_append (A B : List Char)
    (h : ∀ c ∈ A, c ≠ 'e' ∧ c ≠ 'E') :
    splitOnE (A ++ 'E' :: B) = (A, some B) := by
  induction A with
  | nil => rfl
  | cons c t ih =>
    have hc := h c (by simp)
    simp [splitOnE, hc.1, hc.2, ih (fun c' hc' => h c' (by simp [hc']))]

theorem splitDot_noDot (l : List Char) (h : ∀ c ∈ l, c ≠ '.') :
    splitDot l = some (l, []) := by
  induction l with
  | nil => rfl
  | cons c t ih =>
    have hc := h c (by simp)
    simp [splitDot, hc, ih (fun c' hc' => h c' (by simp [hc']))]

theorem splitDot_append (A B : List Char)
    (hA : ∀ c ∈ A, c ≠ '.') (hB : ∀ c ∈ B, c ≠ '.') :
    splitDot (A ++ '.' :: B) = some (A, B) := by
  induction A with
  | nil =>
    have : '.' ∉ B := fun hmem => hB '.' hmem rfl
    simp [splitDot, this]
  | cons c t ih =>
    have hc := hA c (by simp)
    simp [splitDot, hc, ih (fun c' hc' => hA c' (by simp [hc']))]

/-! ### stripZeros lemmas -/

theorem stripZeros_canon (m : List Char) (hne : m ≠ [])
    (h : m = ['0'] ∨ m.head? ≠ some '0') : stripZeros m = m := by
  cases m with
  | nil => exact absurd rfl hne
  | cons c t =>
    rcases h with h | h
    · cases h
      rfl
    · simp only [List.head?_cons, ne_eq, Option.some.injEq] at h
      simp [stripZeros, h]

theorem stripZeros_replicate (r : Nat) (m : List Char) (hne : m ≠ []) :
    stripZeros (List.replicate r '0' ++ m) = stripZeros m := by
  induction r with
  | zero => simp
  | succ q ih =>
    rw [List.replicate_succ, List.cons_append]
    have hlen : List.replicate q '0' ++ m ≠ [] := by
      simp [hne]
    simp [stripZeros, hlen, ih]

/-! ### Natural-number digit printing round trip -/

theorem natToCharsAux_spec :
    ∀ fuel m, m < fuel →
      (natToCharsAux fuel m).all isDigitC = true ∧
        natToCharsAux fuel m ≠ [] ∧
        (natToCharsAux fuel m).foldl (fun a c => 10 * a + digVal c) 0 = m := by
  intro fuel
  induction fuel with
  | zero => intro m hm; omega
  | succ f ih =>
    intro m hm
    by_cases h10 : m < 10
    · refine ⟨?_, by simp [natToCharsAux, h10], ?_⟩
      · simp [natToCharsAux, h10, isDigitC_digitC m h10]
      · simp [natToCharsAux, h10, List.foldl, digVal_digitC m h10]
    · have hdiv : m / 10 < m := Nat.div_lt_self (by omega) (by omega)
      have hf : m / 10 < f := by omega
      obtain ⟨ha, hne, hfold⟩ := ih (m / 10) hf
      have hmod : m % 10 < 10 := Nat.mod_lt _ (by omega)
      refine ⟨?_, ?_, ?_⟩
      · simp only [natToCharsAux, if_neg h10, List.all_append, ha,
          Bool.true_and, List.all_cons, List.all_nil, Bool.and_true]
        exact isDigitC_digitC _ hmod
      · simp [natToCharsAux, h10]
      · simp only [natToCharsAux, if_neg h10, List.foldl_append, hfold,
          List.foldl_cons, List.foldl_nil, digVal_digitC _ hmod]
        omega

theorem parseNatDigits_natToChars (m : Nat) :
    parseNatDigits (natToChars m) = some m := by
  obtain ⟨ha, hne, hfold⟩ := natToCharsAux_spec (m + 1) m (by omega)
  simp [parseNatDigits, natToChars, ha, hne, hfold]

theorem natToChars_all_digit (m : Nat) :
    (natToChars m).all isDigitC = true :=
  (natToCharsAux_spec (m + 1) m (by omega)).1

theorem parseExpPart_print (a : Int) :
    parseExpPart (if a < 0 then '-' :: natToChars a.natAbs
                  else '+' :: natToChars a.natAbs) = some a := by
  by_cases ha : a < 0
  · rw [if_pos ha]
    rw [show parseExpPart ('-' :: natToChars a.natAbs) =
        (parseNatDigits (natToChars a.natAbs)).map (fun m => -(m : Int))
      from rfl]
    rw [parseNatDigits_natToChars]
    have h2 : (↑a.natAbs : Int) = -a := Int.ofNat_natAbs_of_nonpos (by omega)
    simp [h2]
  · rw [if_neg ha]
    rw [show parseExpPart ('+' :: natToChars a.natAbs) =
        (parseNatDigits (natToChars a.natAbs)).map (fun m => (m : Int))
      from rfl]
    rw [parseNatDigits_natToChars]
    have h2 : (↑a.natAbs : Int) = a := Int.natAbs_of_nonneg (by omega)
    simp [h2]

/-! ### Mantissa-parse lemmas -/

theorem decParseMant_nodot (m : List Char) (e0 : Int)
    (hnd : ∀ c ∈ m, c ≠ '.') (hne : m ≠ []) (hall : m.all isDigitC = true) :
    decParseMant m e0 = some ⟨false, stripZeros m, e0⟩ := by
  simp only [decParseMant]
  rw [splitDot_noDot m hnd]
  simp [hne, hall]

theorem decParseMant_dot (A B : List Char) (e0 : Int)
    (hA : ∀ c ∈ A, c ≠ '.') (hB : ∀ c ∈ B, c ≠ '.')
    (hne : A ++ B ≠ []) (hall : (A ++ B).all isDigitC = true) :
    decParseMant (A ++ '.' :: B) e0 =
      some ⟨false, stripZeros (A ++ B), e0 - B.length⟩ := by
  simp only [decParseMant]
  rw [splitDot_append A B hA hB]
  simp only [List.all_append] at hall ⊢
  simp [hne, hall]

theorem all_digit_no_special (l : List Char) (h : l.all isDigitC = true) :
    (∀ c ∈ l, c ≠ 'e' ∧ c ≠ 'E') ∧ (∀ c ∈ l, c ≠ '.') := by
  rw [List.all_eq_true] at h
  constructor
  · intro c hc
    have hs := isDigitC_spec c (by simpa using h c hc)
    exact ⟨hs.2.2.2.1, hs.2.2.2.2⟩
  · intro c hc
    exact (isDigitC_spec c (by simpa using h c hc)).2.2.1

/-! ### The Decimal print / parse round trip -/

theorem decPrintBody_spec (d : Dec) (hC : d.Canon) :
    decParseCore (decPrintBody d) = some ⟨false, d.mant, d.exp⟩ ∧
      ∃ c0 t, decPrintBody d = c0 :: t ∧ isDigitC c0 = true := by
  obtain ⟨hne, hall, hcanon⟩ := hC
  obtain ⟨hnoE, hnoDot⟩ := all_digit_no_special d.mant hall
  have hstrip : stripZeros d.mant = d.mant := stripZeros_canon _ hne hcanon
  obtain ⟨m0, mt, hm⟩ : ∃ m0 mt, d.mant = m0 :: mt := by
    cases hm : d.mant with
    | nil => exact absurd hm hne
    | cons a b => exact ⟨a, b, rfl⟩
  have hm0 : isDigitC m0 = true := by
    have := List.all_eq_true.mp hall m0 (by simp [hm])
    simpa using this
  by_cases hplain : d.exp ≤ 0 ∧ -6 ≤ d.exp + (d.mant.length : Int) - 1
  · by_cases hz : d.exp = 0
    · have hbody : decPrintBody d = d.mant := by
        simp only [decPrintBody]
        rw [if_pos hplain, if_pos hz]
      rw [hbody]
      refine ⟨?_, m0, mt, hm, hm0⟩
      simp only [decParseCore, splitOnE_noE _ hnoE]
      rw [decParseMant_nodot _ _ hnoDot hne hall, hstrip, hz]
    · by_cases hpos : 0 < (d.mant.length : Int) + d.exp
      · have hk1 : 1 ≤ ((d.mant.length : Int) + d.exp).toNat := by omega
        have hbody : decPrintBody d =
            d.mant.take ((d.mant.length : Int) + d.exp).toNat ++
              '.' :: d.mant.drop ((d.mant.length : Int) + d.exp).toNat := by
          simp only [decPrintBody]
          rw [if_pos hplain, if_neg hz, if_pos hpos]
        have htk : ∀ c ∈ d.mant.take ((d.mant.length : Int) + d.exp).toNat,
            c ≠ '.' := fun c hc => hnoDot c (List.take_subset _ _ hc)
        have hdr : ∀ c ∈ d.mant.drop ((d.mant.length : Int) + d.exp).toNat,
            c ≠ '.' := fun c hc => hnoDot c (List.drop_subset _ _ hc)
        have hwholeE : ∀ c ∈ d.mant.take ((d.mant.length : Int) + d.exp).toNat ++
            '.' :: d.mant.drop ((d.mant.length : Int) + d.exp).toNat,
            c ≠ 'e' ∧ c ≠ 'E' := by
          intro c hc
          rcases List.mem_append.mp hc with hc | hc
          · exact hnoE c (List.take_subset _ _ hc)
          · rcases List.mem_cons.mp hc with rfl | hc
            · exact ⟨by decide, by decide⟩
            · exact hnoE c (List.drop_subset _ _ hc)
        constructor
        · rw [hbody]
          simp only [decParseCore, splitOnE_noE _ hwholeE]
          rw [decParseMant_dot _ _ _ htk hdr
            (by rw [List.take_append_drop]; exact hne)
            (by rw [List.take_append_drop]; exact hall)]
          rw [List.take_append_drop, hstrip]
          simp only [Option.some.injEq, Dec.mk.injEq, List.length_drop,
            eq_self_iff_true, true_and]
          omega
        · obtain ⟨k', hk'⟩ : ∃ k', ((d.mant.length : Int) + d.exp).toNat = k' + 1 :=
            ⟨((d.mant.length : Int) + d.exp).toNat - 1, by omega⟩
          refine ⟨m0, mt.take k' ++ '.' :: (m0 :: mt).drop (k' + 1), ?_, hm0⟩
          rw [hbody, hk', hm]
          rfl
      · have hbody : decPrintBody d = '0' :: '.' ::
            (List.replicate (-((d.mant.length : Int) + d.exp)).toNat '0' ++
              d.mant) := by
          simp only [decPrintBody]
          rw [if_pos hplain, if_neg hz, if_neg hpos]
        refine ⟨?_, '0', _, hbody, by decide⟩
        have hB : ∀ c ∈ List.replicate
            (-((d.mant.length : Int) + d.exp)).toNat '0' ++ d.mant,
            c ≠ '.' := by
          intro c hc
          rcases List.mem_append.mp hc with hc | hc
          · rw [List.eq_of_mem_replicate hc]
            decide
          · exact hnoDot c hc
        have hwholeE : ∀ c ∈ decPrintBody d, c ≠ 'e' ∧ c ≠ 'E' := by
          rw [hbody]
          intro c hc
          rcases List.mem_cons.mp hc with rfl | hc
          · exact ⟨by decide, by decide⟩
          rcases List.mem_cons.mp hc with rfl | hc
          · exact ⟨by decide, by decide⟩
          rcases List.mem_append.mp hc with hc | hc
          · rw [List.eq_of_mem_replicate hc]
            exact ⟨by decide, by decide⟩
          · exact hnoE c hc
        rw [hbody] at hwholeE ⊢
        simp only [decParseCore, splitOnE_noE _ hwholeE]
        rw [show ('0' :: '.' ::
            (List.replicate (-((d.mant.length : Int) + d.exp)).toNat '0' ++
              d.mant) : List Char) =
            ['0'] ++ '.' ::
            (List.replicate (-((d.mant.length : Int) + d.exp)).toNat '0' ++
              d.mant) from rfl]
        rw [decParseMant_dot _ _ _ (by intro c hc; simp at hc; rw [hc]; decide)
          hB (by simp) ?hall2]
        case hall2 =>
          rw [List.all_eq_true]
          intro c hc
          rcases List.mem_append.mp hc with hc | hc
          · simp only [List.mem_singleton] at hc
            rw [hc]
            decide
          · rcases List.mem_append.mp hc with hc | hc
            · rw [List.eq_of_mem_replicate hc]
              decide
            · exact List.all_eq_true.mp hall c hc
        rw [show (['0'] ++
            (List.replicate (-((d.mant.length : Int) + d.exp)).toNat '0' ++
              d.mant) : List Char) =
            List.replicate ((-((d.mant.length : Int) + d.exp)).toNat + 1) '0' ++
              d.mant by
          simp [List.replicate_succ]]
        rw [stripZeros_replicate _ _ hne, hstrip]
        simp only [Option.some.injEq, Dec.mk.injEq, List.length_append,
          List.length_replicate, eq_self_iff_true, true_and]
        omega
  · have hEtail := parseExpPart_print (d.exp + (d.mant.length : Int) - 1)
    by_cases hlen1 : d.mant.length = 1
    · have hbody : decPrintBody d = d.mant ++ 'E' ::
          (if d.exp + (d.mant.length : Int) - 1 < 0
           then '-' :: natToChars (d.exp + (d.mant.length : Int) - 1).natAbs
           else '+' :: natToChars (d.exp + (d.mant.length : Int) - 1).natAbs) := by
        simp only [decPrintBody]
        rw [if_neg hplain, if_pos hlen1]
      constructor
      · rw [hbody]
        simp only [decParseCore, splitOnE_append _ _ hnoE, hEtail]
        rw [decParseMant_nodot _ _ hnoDot hne hall, hstrip]
        simp only [Option.some.injEq, Dec.mk.injEq, eq_self_iff_true, true_and]
        omega
      · refine ⟨m0, mt ++ 'E' :: (if d.exp + (d.mant.length : Int) - 1 < 0
           then '-' :: natToChars (d.exp + (d.mant.length : Int) - 1).natAbs
           else '+' :: natToChars (d.exp + (d.mant.length : Int) - 1).natAbs), ?_, hm0⟩
        rw [hbody, hm]
        rfl
    · have hbody : decPrintBody d =
          (d.mant.take 1 ++ '.' :: d.mant.drop 1) ++ 'E' ::
          (if d.exp + (d.mant.length : Int) - 1 < 0
           then '-' :: natToChars (d.exp + (d.mant.length : Int) - 1).natAbs
           else '+' :: natToChars (d.exp + (d.mant.length : Int) - 1).natAbs) := by
        simp only [decPrintBody]
        rw [if_neg hplain, if_neg hlen1]
      have htk : ∀ c ∈ d.mant.take 1, c ≠ '.' :=
        fun c hc => hnoDot c (List.take_subset _ _ hc)
      have hdr : ∀ c ∈ d.mant.drop 1, c ≠ '.' :=
        fun c hc => hnoDot c (List.drop_subset _ _ hc)
      have hpartE : ∀ c ∈ d.mant.take 1 ++ '.' :: d.mant.drop 1,
          c ≠ 'e' ∧ c ≠ 'E' := by
        intro c hc
        rcases List.mem_append.mp hc with hc | hc
        · exact hnoE c (List.take_subset _ _ hc)
        · rcases List.mem_cons.mp hc with rfl | hc
          · exact ⟨by decide, by decide⟩
          · exact hnoE c (List.drop_subset _ _ hc)
      constructor
      · rw [hbody]
        simp only [decParseCore, splitOnE_append _ _ hpartE, hEtail]
        rw [decParseMant_dot _ _ _ htk hdr
          (by rw [List.take_append_drop]; exact hne)
          (by rw [List.take_append_drop]; exact hall)]
        rw [List.take_append_drop, hstrip]
        simp only [Option.some.injEq, Dec.mk.injEq, List.length_drop,
          eq_self_iff_true, true_and]
        have hlpos : d.mant.length ≠ 0 := by
          intro h0
          exact hne (List.length_eq_zero.mp h0)
        omega
      · refine ⟨m0, (mt.take 0 ++ '.' :: (m0 :: mt).drop 1) ++ 'E' ::
          (if d.exp + (d.mant.length : Int) - 1 < 0
           then '-' :: natToChars (d.exp + (d.mant.length : Int) - 1).natAbs
           else '+' :: natToChars (d.exp + (d.mant.length : Int) - 1).natAbs),
          ?_, hm0⟩
        rw [hbody, hm]
        rfl

/-- `str(Decimal(...))` round trip: parsing the printed form of a
well-formed `Dec` recovers it exactly. -/
theorem decParse_decPrint (d : Dec) (hC : d.Canon) :
    decParse (decPrint d) = some d := by
  obtain ⟨hcore, c0, t, hbody, hc0⟩ := decPrintBody_spec d hC
  obtain ⟨hplus, hminus, _, _, _⟩ := isDigitC_spec c0 hc0
  have hmk : ∀ (c : Char) (l : List Char),
      decParse ⟨c :: l⟩ = if c = '+' then decParseCore l
        else if c = '-' then
          (decParseCore l).map (fun e => ⟨true, e.mant, e.exp⟩)
        else decParseCore (c :: l) := fun c l => rfl
  cases hneg : d.neg with
  | false =>
    have hp : decPrint d = ⟨c0 :: t⟩ := by
      simp [decPrint, decPrintChars, hneg, hbody]
    rw [hp, hmk, if_neg hplus, if_neg hminus, ← hbody, hcore]
    cases d with
    | mk n m e => simp_all
  | true =>
    have hp : decPrint d = ⟨'-' :: c0 :: t⟩ := by
      simp [decPrint, decPrintChars, hneg, hbody]
    rw [hp, hmk, if_neg (by decide), if_pos rfl, ← hbody, hcore]
    cases d with
    | mk n m e => simp_all

/-- The merge pipeline is exact on numbers: for any well-formed decimal,
unmarshalling `{'N': str(d)}` through `Decimal` and marshalling it back
reproduces the identical digit string. -/
theorem remarshal_decPrint (d : Dec) (hC : d.Canon) :
    remarshal (.n (decPrint d)) = some (.n (decPrint d)) := by
  simp [remarshal, decParse_decPrint d hC]

/-! ### Store / driver evaluation lemmas -/

theorem setA_ne_nil (it : Item) (k : String) (v : AttrVal) :
    setA it k v ≠ [] := by
  cases it with
  | nil => simp [setA]
  | cons hd t =>
    obtain ⟨a, b⟩ := hd
    by_cases h : a = k <;> simp [setA, h]

theorem str_ts : ("trip_start" ++ "#" : String) = "trip_start#" := rfl

theorem str_te : ("trip_end" ++ "#" : String) = "trip_end#" := rfl

theorem hasKeyB_eval (pk sk : String) (row : Item) (rpk rsk : String)
    (h1 : lookupA row "PK" = some (.s rpk))
    (h2 : lookupA row "SK" = some (.s rsk)) :
    hasKeyB pk sk row = (decide (rpk = pk) && decide (rsk = sk)) := by
  simp [hasKeyB, h1, h2]

theorem isSide_eval (pid pre : String) (row : Item) (rpk rsk : String)
    (h1 : lookupA row "PK" = some (.s rpk))
    (h2 : lookupA row "SK" = some (.s rsk)) :
    isSide pid pre row = (decide (rpk = pid) && beginsWith pre rsk) := by
  simp [isSide, h1, h2]

theorem lookupA_merged_PK (it data : Item) :
    lookupA (applySets it (buildSets data)) "PK" = lookupA it "PK" :=
  lookupA_mergeSets_of_not_merge it data "PK" (by decide)

theorem lookupA_merged_SK (it data : Item) :
    lookupA (applySets it (buildSets data)) "SK" = lookupA it "SK" :=
  lookupA_mergeSets_of_not_merge it data "SK" (by decide)

theorem lookupA_merged_dt (it data : Item) :
    lookupA (applySets it (buildSets data)) "data_type" = lookupA it "data_type" :=
  lookupA_mergeSets_of_not_merge it data "data_type" (by decide)

theorem buildSets_setA_status_ne_nil (data : Item) :
    buildSets (setA data "status" (.s "completed")) ≠ [] :=
  List.ne_nil_of_mem (status_mem_buildSets data)

/-- The merge phase of a START-triggered merge with no injected faults:
the update targets the record's own `typed` key and lands; the delete
targets the counterpart's `plain` key, raises `ParamValidationError`
inside `delete_item`, and leaves the store unchanged.  Both calls are
issued. -/
theorem mergePhase_typed_plain (st : Store) (upk usk dpk dsk : String)
    (data : Item) (hdata : data ≠ []) :
    mergePhase noF st (.typed upk usk) (.plain dpk dsk) data =
      (Store.updateItem st upk usk
        (buildSets (setA data "status" (.s "completed"))),
       [.upd upk usk, .del dpk dsk]) := by
  simp [mergePhase, update_merged_item, delete_item, noF, hdata,
    setA_ne_nil, buildSets_setA_status_ne_nil]

/-- The merge phase of an END-triggered merge with no injected faults:
the update targets the counterpart's `plain` key, raises
`ParamValidationError` inside `update_merged_item`, and changes nothing;
the delete targets the record's own `typed` key and lands.  Both calls
are issued. -/
theorem mergePhase_plain_typed (st : Store) (upk usk dpk dsk : String)
    (data : Item) (hdata : data ≠ []) :
    mergePhase noF st (.plain upk usk) (.typed dpk dsk) data =
      (Store.deleteItem st dpk dsk, [.upd upk usk, .del dpk dsk]) := by
  simp [mergePhase, update_merged_item, delete_item, noF, hdata,
    setA_ne_nil, buildSets_setA_status_ne_nil]

/-- The completed record carries the `status = 'completed'` marker. -/
theorem mergeRows_status (survivor donor : Item) :
    lookupA (mergeRows survivor donor) "status" = some (.s "completed") := by
  unfold mergeRows
  exact lookupA_applySets_of_mem _ _ _ _ (buildSets_keys_nodup _)
    (status_mem_buildSets donor)

theorem ne_nil_of_lookupA (it : Item) (k : String) (v : AttrVal)
    (h : lookupA it k = some v) : it ≠ [] := by
  intro he
  rw [he] at h
  simp [lookupA] at h

theorem noF_q : noF.q = false := rfl

theorem find_counterpart_of_end (qf : Bool) (st : Store) (pid : String) :
    find_counterpart_item qf st pid (.s "trip_end") =
      (if qf then none else st.find? (isSide pid "trip_start#"),
       [.query pid "trip_start#"]) := by
  cases qf <;> rfl

theorem find_counterpart_of_start (qf : Bool) (st : Store) (pid : String) :
    find_counterpart_item qf st pid (.s "trip_start") =
      (if qf then none else st.find? (isSide pid "trip_end#"),
       [.query pid "trip_end#"]) := by
  cases qf <;> rfl

/-! ### Generalized per-record lemmas (arbitrary store) -/

/-- `find_counterpart_item` with no fault, for an arbitrary unmarshalled
`data_type` value. -/
theorem find_counterpart_eval (st : Store) (pid : String) (dtv : AttrVal) :
    find_counterpart_item false st pid dtv =
      (st.find? (isSide pid
        ((if pyEqS dtv "trip_start" then "trip_end" else "trip_start") ++ "#")),
       [.query pid
        ((if pyEqS dtv "trip_start" then "trip_end" else "trip_start") ++ "#")]) :=
  rfl

/-- A record whose `PK`, `SK` or `data_type` is missing-or-falsy is
skipped before any store call. -/
theorem processRecord_guard_fail (f : Faults) (st : Store) (img : Item)
    (pid sk : String) (dtv : AttrVal)
    (h1 : lookupA img "PK" = some (.s pid))
    (h2 : lookupA img "SK" = some (.s sk))
    (h3 : lookupA img "data_type" = some dtv)
    (hg : pid = "" ∨ sk = "" ∨ attrTruthy dtv = false) :
    processRecord f st (mkInsert img) = .ok (st, []) := by
  simp only [processRecord, mkInsert, getS, h1, h2, h3, eq_self_iff_true,
    if_true]
  rw [if_pos hg]

/-- A record whose counterpart query comes back empty is a no-op. -/
theorem processRecord_nf (st : Store) (img : Item)
    (pid sk : String) (dtv : AttrVal)
    (h1 : lookupA img "PK" = some (.s pid))
    (h2 : lookupA img "SK" = some (.s sk))
    (h3 : lookupA img "data_type" = some dtv)
    (hpid : pid ≠ "") (hsk : sk ≠ "") (hdtv : attrTruthy dtv = true)
    (hfind : st.find? (isSide pid
      ((if pyEqS dtv "trip_start" then "trip_end" else "trip_start") ++ "#")) =
      none) :
    processRecord noF st (mkInsert img) =
      .ok (st, [.query pid
        ((if pyEqS dtv "trip_start" then "trip_end" else "trip_start") ++ "#")]) := by
  simp only [processRecord, mkInsert, getS, h1, h2, h3, noF_q,
    find_counterpart_eval, hfind, eq_self_iff_true, if_true]
  rw [if_neg (by simp [hpid, hsk, hdtv])]

/-- A record whose counterpart is found but matches neither merge role
(`start`/`end` inverted or inconsistent) is a no-op. -/
theorem processRecord_roles_fail (st : Store) (img cp : Item)
    (pid sk csk : String) (dtv : AttrVal)
    (h1 : lookupA img "PK" = some (.s pid))
    (h2 : lookupA img "SK" = some (.s sk))
    (h3 : lookupA img "data_type" = some dtv)
    (hpid : pid ≠ "") (hsk : sk ≠ "") (hdtv : attrTruthy dtv = true)
    (hc1 : lookupA cp "PK" = some (.s pid))
    (hc2 : lookupA cp "SK" = some (.s csk)) (hcsk : csk ≠ "")
    (hfind : st.find? (isSide pid
      ((if pyEqS dtv "trip_start" then "trip_end" else "trip_start") ++ "#")) =
      some cp)
    (hr1 : ¬ (pyEqS dtv "trip_start" = true ∧
      pyEqSo (lookupA cp "data_type") "trip_end" = true))
    (hr2 : ¬ (pyEqS dtv "trip_end" = true ∧
      pyEqSo (lookupA cp "data_type") "trip_start" = true)) :
    processRecord noF st (mkInsert img) =
      .ok (st, [.query pid
        ((if pyEqS dtv "trip_start" then "trip_end" else "trip_start") ++ "#")]) := by
  simp only [processRecord, mkInsert, getS, h1, h2, h3, noF_q,
    find_counterpart_eval, hfind, hc1, hc2, eq_self_iff_true, if_true]
  rw [if_neg (by simp [hpid, hsk, hdtv])]
  rw [if_neg (by simp [hpid, hcsk])]
  rw [if_neg hr1, if_neg hr2]

/-- A START-side record whose END counterpart is found: the update —
against the record's own well-formed key — merges the counterpart's data
plus the status marker into the START row, but the delete — against the
`plain` counterpart key — raises `ParamValidationError` and the END row
stays in the store. -/
theorem processRecord_merge_from_start (st : Store) (img cp : Item)
    (pid sk csk : String) (dtv : AttrVal)
    (h1 : lookupA img "PK" = some (.s pid))
    (h2 : lookupA img "SK" = some (.s sk))
    (h3 : lookupA img "data_type" = some dtv)
    (hpid : pid ≠ "") (hsk : sk ≠ "") (hdtv : attrTruthy dtv = true)
    (hpys : pyEqS dtv "trip_start" = true)
    (hc1 : lookupA cp "PK" = some (.s pid))
    (hc2 : lookupA cp "SK" = some (.s csk)) (hcsk : csk ≠ "")
    (hc3 : pyEqSo (lookupA cp "data_type") "trip_end" = true)
    (hfind : st.find? (isSide pid "trip_end#") = some cp) :
    processRecord noF st (mkInsert img) =
      .ok (Store.updateItem st pid sk
            (buildSets (setA cp "status" (.s "completed"))),
        [.query pid "trip_end#", .upd pid sk, .del pid csk]) := by
  have hcp_ne : cp ≠ [] := ne_nil_of_lookupA _ _ _ hc1
  have hpre : ((if pyEqS dtv "trip_start" then "trip_end" else "trip_start")
      ++ "#" : String) = "trip_end#" := by
    rw [hpys]
    rfl
  simp only [processRecord, mkInsert, getS, h1, h2, h3, noF_q,
    find_counterpart_eval, hpre, hfind, hc1, hc2, eq_self_iff_true, if_true]
  rw [if_neg (by simp [hpid, hsk, hdtv])]
  rw [if_neg (by simp [hpid, hcsk])]
  rw [if_pos (by simp [hpys, hc3])]
  rw [mergePhase_typed_plain _ _ _ _ _ _ hcp_ne]
  simp

/-- An END-side record whose START counterpart is found: the update —
against the `plain` counterpart key — raises `ParamValidationError` and
the START row is never merged, but the delete — against the record's own
well-formed key — lands and removes the END row. -/
theorem processRecord_merge_from_end (st : Store) (img cp : Item)
    (pid sk csk : String) (dtv : AttrVal)
    (h1 : lookupA img "PK" = some (.s pid))
    (h2 : lookupA img "SK" = some (.s sk))
    (h3 : lookupA img "data_type" = some dtv)
    (hpid : pid ≠ "") (hsk : sk ≠ "") (hdtv : attrTruthy dtv = true)
    (hpyns : pyEqS dtv "trip_start" = false)
    (hpye : pyEqS dtv "trip_end" = true)
    (hc1 : lookupA cp "PK" = some (.s pid))
    (hc2 : lookupA cp "SK" = some (.s csk)) (hcsk : csk ≠ "")
    (hc3 : pyEqSo (lookupA cp "data_type") "trip_start" = true)
    (hfind : st.find? (isSide pid "trip_start#") = some cp) :
    processRecord noF st (mkInsert img) =
      .ok (Store.deleteItem st pid sk,
        [.query pid "trip_start#", .upd pid csk, .del pid sk]) := by
  have himg_ne : img ≠ [] := ne_nil_of_lookupA _ _ _ h1
  have hpre : ((if pyEqS dtv "trip_start" then "trip_end" else "trip_start")
      ++ "#" : String) = "trip_start#" := by
    rw [hpyns]
    rfl
  simp only [processRecord, mkInsert, getS, h1, h2, h3, noF_q,
    find_counterpart_eval, hpre, hfind, hc1, hc2, eq_self_iff_true, if_true]
  rw [if_neg (by simp [hpid, hsk, hdtv])]
  rw [if_neg (by simp [hpid, hcsk])]
  rw [if_neg (by simp [hpyns])]
  rw [if_pos (by simp [hpye, hc3])]
  rw [mergePhase_plain_typed _ _ _ _ _ _ himg_ne]
  simp

/-! ### The claims -/

/-- C6 (code bug): the intended survivor rule — START row updated with
the donor's data plus `status = 'completed'`, END row deleted, in both
trigger directions — never fully executes, because `counterpart_item_key`
(lambda2.py:289-292) is built from bare strings and every client call on
it raises `ParamValidationError`.  At the concrete T1 pair: the
END-triggered merge deletes the END row but leaves the START row
untouched — no merge, no `status` marker — while the START-triggered
merge does produce the completed record at the START key but leaves the
END row undeleted in the store. -/
theorem c6_survivor_rule_broken :
    runRecords noF [cRowStart, cRowEnd] [mkInsert cRowEnd] = [cRowStart] ∧
      lookupA cRowStart "status" = none ∧
      runRecords noF [cRowEnd, cRowStart] [mkInsert cRowStart] =
        [cRowEnd, mergeRows cRowStart cRowEnd] ∧
      cRowEnd ∈ runRecords noF [cRowEnd, cRowStart] [mkInsert cRowStart] ∧
      lookupA (mergeRows cRowStart cRowEnd) "status" =
        some (.s "completed") :=
  ⟨by decide, by decide, by decide, by decide, by decide⟩

/-- C3 (code bug): order independence fails.  Delivering the T1 START
row's INSERT and then the END row's INSERT leaves only the unmerged
START row (the END-triggered update of the malformed
`counterpart_item_key` raises, the delete of the well-formed own key
lands), while delivering END then START leaves the merged START row plus
the undeleted END row (the update of the own key lands, the delete of
the malformed counterpart key raises).  The two final stores differ, and
neither is the single completed record the claim describes. -/
theorem c3_order_dependence :
    deliverInsert (deliverInsert [] cRowStart) cRowEnd = [cRowStart] ∧
      deliverInsert (deliverInsert [] cRowEnd) cRowStart =
        [cRowEnd, mergeRows cRowStart cRowEnd] ∧
      deliverInsert (deliverInsert [] cRowStart) cRowEnd ≠
        deliverInsert (deliverInsert [] cRowEnd) cRowStart :=
  ⟨by decide, by decide, by decide⟩


/-- C7: A change-feed notification whose event kind is MODIFY or REMOVE,
or whose after-image is absent, causes no store operation at all — the
store is unchanged and the issued-operation trace is empty — under any
fault pattern. -/
theorem c7_only_insert_acts (f : Faults) (st : Store) (r : StreamRecord)
    (h : r.eventName = "MODIFY" ∨ r.eventName = "REMOVE" ∨ r.newImage = none) :
    processRecord f st r = .ok (st, []) := by
  rcases h with h | h | h
  · simp +decide [processRecord, h]
  · simp +decide [processRecord, h]
  · by_cases he : r.eventName = "INSERT"
    · simp [processRecord, he, h]
    · simp [processRecord, he]

/-- Witness for C7: a MODIFY notification, a REMOVE notification, and an
INSERT with no after-image are all complete no-ops. -/
theorem c7_witness :
    processRecord noF [cRowStart] ⟨"MODIFY", some (.val cRowEnd)⟩ =
        .ok ([cRowStart], []) ∧
      processRecord noF [cRowStart] ⟨"REMOVE", none⟩ = .ok ([cRowStart], []) ∧
      processRecord noF [cRowStart] ⟨"INSERT", none⟩ = .ok ([cRowStart], []) :=
  ⟨c7_only_insert_acts noF [cRowStart] _ (Or.inl rfl),
   c7_only_insert_acts noF [cRowStart] _ (Or.inr (Or.inl rfl)),
   c7_only_insert_acts noF [cRowStart] _ (Or.inr (Or.inr rfl))⟩

/-- Splitting the handler's per-record loop over an appended batch. -/
theorem runRecords_append (f : Faults) (st : Store)
    (rs₁ rs₂ : List StreamRecord) :
    runRecords f st (rs₁ ++ rs₂) = runRecords f (runRecords f st rs₁) rs₂ := by
  induction rs₁ generalizing st with
  | nil => rfl
  | cons r rs ih => simp [runRecords, ih]

/-- C10: The handler returns statusCode 200 for every input batch under
every fault pattern, and an error raised while processing one
notification (a malformed after-image whose decode raises) neither
aborts nor affects the processing of the other notifications in the
batch: the final store equals that of the batch with the failing record
left out, every sibling still processed. -/
theorem c10_batch_isolation :
    (∀ (f : Faults) (st : Store) (records : List StreamRecord),
        (lambda_handler f st records).2.statusCode = 200) ∧
      (∀ (f : Faults) (st : Store) (rs₁ rs₂ : List StreamRecord)
          (b : StreamRecord),
          b.eventName = "INSERT" → b.newImage = some .bad →
          (lambda_handler f st (rs₁ ++ b :: rs₂)).1 =
            (lambda_handler f st (rs₁ ++ rs₂)).1) := by
  constructor
  · intro f st records
    rfl
  · intro f st rs₁ rs₂ b hb1 hb2
    simp only [lambda_handler]
    rw [runRecords_append, runRecords_append]
    have hbad : processRecord f (runRecords f st rs₁) b = .error () := by
      simp +decide [processRecord, hb1, hb2]
    simp [runRecords, hbad]

/-- Witness for C10: a batch whose first record is malformed still
returns 200 and still applies the second record's processing. -/
theorem c10_witness :
    (lambda_handler noF [] [⟨"INSERT", some .bad⟩,
        mkInsert cRowStart]).2.statusCode = 200 ∧
      (lambda_handler noF []
          ([] ++ (⟨"INSERT", some .bad⟩ : StreamRecord) :: [mkInsert cRowStart])).1 =
        (lambda_handler noF [] ([] ++ [mkInsert cRowStart])).1 :=
  ⟨c10_batch_isolation.1 noF [] _,
   c10_batch_isolation.2 noF [] [] [mkInsert cRowStart] ⟨"INSERT", some .bad⟩
     rfl rfl⟩

theorem lookupA_mem (it : Item) (k : String) (v : AttrVal)
    (h : lookupA it k = some v) : (k, v) ∈ it := by
  induction it with
  | nil => simp [lookupA] at h
  | cons hd t ih =>
    obtain ⟨a, b⟩ := hd
    by_cases hak : a = k
    · subst hak
      simp [lookupA] at h
      simp [h]
    · simp [lookupA, hak] at h
      simp [ih h]

/-- C5: For every merge of two lambda1-shaped partial records, the
completed record's attribute set is the union of both sides': the
survivor's own attributes are never overwritten (its keys do not collide
with the merge list), every donor attribute appears — either merged in
with its marshalled value (merge-list keys) or already present on the
survivor with the survivor's value taking precedence — and the status
marker is added.  The hypotheses state exactly the shape lambda1 gives
rows: every donor key is in the fixed merge list or shared with the
survivor, survivor keys avoid the merge list, and donor merge-list
values are of marshallable type. -/
theorem c5_merge_union (survivor donor : Item)
    (hcov : ∀ p ∈ donor, p.1 ∈ attributes_to_merge ∨
      (lookupA survivor p.1).isSome)
    (hdisj : ∀ p ∈ survivor, p.1 ∉ attributes_to_merge)
    (hval : ∀ p ∈ donor, p.1 ∈ attributes_to_merge →
      (remarshal p.2).isSome) :
    (∀ k v, lookupA survivor k = some v →
        lookupA (mergeRows survivor donor) k = some v) ∧
      (∀ k, (lookupA donor k).isSome →
        (lookupA (mergeRows survivor donor) k).isSome) ∧
      (∀ k v, lookupA donor k = some v → k ∈ attributes_to_merge →
        k ≠ "status" → lookupA (mergeRows survivor donor) k = remarshal v) ∧
      lookupA (mergeRows survivor donor) "status" = some (.s "completed") := by
  have hsurv : ∀ k v, lookupA survivor k = some v →
      lookupA (mergeRows survivor donor) k = some v := by
    intro k v h
    have hk : k ∉ attributes_to_merge := hdisj (k, v) (lookupA_mem _ _ _ h)
    unfold mergeRows
    rw [lookupA_mergeSets_of_not_merge _ _ _ hk]
    exact h
  have hdonor_merge : ∀ k v, lookupA donor k = some v →
      k ∈ attributes_to_merge → k ≠ "status" →
      lookupA (mergeRows survivor donor) k = remarshal v := by
    intro k v h hk hns
    have hlk : lookupA (setA donor "status" (.s "completed")) k = some v := by
      rw [lookupA_setA]
      simp [Ne.symm hns, h]
    have hrv : (remarshal v).isSome := hval (k, v) (lookupA_mem _ _ _ h) hk
    obtain ⟨w, hw⟩ := Option.isSome_iff_exists.mp hrv
    have hmem : (k, w) ∈ buildSets (setA donor "status" (.s "completed")) := by
      rw [mem_buildSets]
      exact ⟨hk, v, hlk, hw⟩
    unfold mergeRows
    rw [lookupA_applySets_of_mem _ _ _ _ (buildSets_keys_nodup _) hmem, hw]
  refine ⟨hsurv, ?_, hdonor_merge, mergeRows_status _ _⟩
  intro k hk
  obtain ⟨v, hv⟩ := Option.isSome_iff_exists.mp hk
  by_cases hkm : k ∈ attributes_to_merge
  · by_cases hks : k = "status"
    · subst hks
      rw [mergeRows_status]
      rfl
    · rw [hdonor_merge k v hv hkm hks]
      exact hval (k, v) (lookupA_mem _ _ _ hv) hkm
  · rcases hcov (k, v) (lookupA_mem _ _ _ hv) with hkm' | hsome
    · exact absurd hkm' hkm
    · obtain ⟨w, hw⟩ := Option.isSome_iff_exists.mp hsome
      rw [hsurv k w hw]
      rfl

/-- Witness for C5 at the concrete T1 scenario: the merged row holds the
donor's fare with identical digits and the survivor's own pickup time. -/
theorem c5_witness :
    lookupA (mergeRows cRowStart cRowEnd) "fare_amount" = some (.n "15.75") ∧
      lookupA (mergeRows cRowStart cRowEnd) "pickup_datetime" =
        some (.s "2025-04-20T08:00:00") := by
  have h := c5_merge_union cRowStart cRowEnd (by decide) (by decide) (by decide)
  constructor
  · have h3 := h.2.2.1 "fare_amount" (.n "15.75") (by decide) (by decide)
      (by decide)
    rw [h3]
    decide
  · exact h.1 "pickup_datetime" _ (by decide)

/-- C9: the normalize→merge→persist pipeline preserves numeric values
exactly: for any well-formed decimal — every `N` value this system ever
writes is `str()` of one — the merge step's `SET` builder maps the
attribute `{'N': str(d)}` to itself (identical digit string, by the
`Decimal` round trip, never a binary-float approximation), and hence any
number of repeated merges leaves it unchanged. -/
theorem c9_numeric_precision (d : Dec) (hC : d.Canon) (k : Nat) :
    buildSets^[k + 1] [("fare_amount", AttrVal.n (decPrint d))] =
      [("fare_amount", AttrVal.n (decPrint d))] := by
  have hfix : buildSets [("fare_amount", AttrVal.n (decPrint d))] =
      [("fare_amount", AttrVal.n (decPrint d))] := by
    simp +decide only [buildSets, attributes_to_merge, lookupA,
      List.filterMap_cons, List.filterMap_nil, if_false, if_true,
      remarshal_decPrint d hC, Option.some_bind, Option.none_bind,
      Option.map_some']
  exact Function.iterate_fixed hfix (k + 1)

/-- Witness for C9: the fare `15.75` (the canonical decimal with
coefficient 1575 and exponent -2) survives a merge digit-for-digit. -/
theorem c9_witness :
    Dec.Canon ⟨false, ['1', '5', '7', '5'], -2⟩ ∧
      buildSets^[1] [("fare_amount", AttrVal.n "15.75")] =
        [("fare_amount", AttrVal.n "15.75")] := by
  refine ⟨by decide, ?_⟩
  have h := c9_numeric_precision ⟨false, ['1', '5', '7', '5'], -2⟩ (by decide) 0
  have he : decPrint ⟨false, ['1', '5', '7', '5'], -2⟩ = "15.75" := by decide
  rw [he] at h
  exact h

/-- C8 (code bug): on 26 input items, when the store reports the first
item of the first 25-item request as unprocessed, lambda1's
`batch_write_to_dynamodb` replaces its whole pending list by that
response, so the 26th item is never submitted in any request and is not
reported as remaining unprocessed either — it is silently dropped.
(Each request does respect the 25-item limit.) -/
theorem c8_silent_drop :
    c8Item25 ∈ c8Items ∧
      (∀ b ∈ (batch_write_to_dynamodb c8Oracle c8Items).1, b.length ≤ 25) ∧
      (batch_write_to_dynamodb c8Oracle c8Items).2 = [] ∧
      ∀ b ∈ (batch_write_to_dynamodb c8Oracle c8Items).1, c8Item25 ∉ b :=
  ⟨by decide, by decide, by decide, by decide⟩

theorem uF_q : uF.q = false := rfl

/-- The merge phase of a START-triggered merge when the store update
raises (fault `uF`): both failures are caught — the update by the
injected store fault, the delete by the `ParamValidationError` on the
`plain` counterpart key — so the store is unchanged, yet both calls are
issued. -/
theorem mergePhase_uF_typed_plain (st : Store) (upk usk dpk dsk : String)
    (data : Item) (hdata : data ≠ []) :
    mergePhase uF st (.typed upk usk) (.plain dpk dsk) data =
      (st, [.upd upk usk, .del dpk dsk]) := by
  simp [mergePhase, update_merged_item, delete_item, uF, hdata, setA_ne_nil,
    buildSets_setA_status_ne_nil]

/-- C1 (counterexample to the claim as stated): with the START and END
rows of T1 both present and the END INSERT notification delivered, the
update against the survivor’s key fails — it targets the malformed
`counterpart_item_key`, on which the client raises
`ParamValidationError` — yet the delete of the donor’s key is not
skipped: it is issued and removes the END row, so the final store holds
only the unmerged START row, not both rows. -/
theorem c1_counterexample :
    processRecord noF [cRowStart, cRowEnd] (mkInsert cRowEnd) =
        .ok ([cRowStart],
          [.query "T1" "trip_start#",
           .upd "T1" "trip_start#2025-04-20T08:00:00",
           .del "T1" "trip_end#2025-04-20T08:20:00"]) ∧
      cRowEnd ∉ ([cRowStart] : Store) :=
  ⟨by decide, by decide⟩

/-- C1 (amended): a failed update never causes the delete to be
skipped.  (a) For every END-triggered merge, the update against the
survivor’s key — the malformed counterpart key — fails, and the driver
still issues the delete of its own well-formed key, removing the donor
END row: the final store is the original minus the `(pid, sk)` row and
no row with that key remains.  (b) For every START-triggered merge with
an injected store fault on the update, the update of the survivor’s own
key fails and the delete is still issued — it happens to fail too, on
the malformed counterpart key — so both rows survive by accident, not
because a skipped delete protected them. -/
theorem c1_amended_update_failure :
    (∀ (st : Store) (img cp : Item) (pid sk csk : String) (dtv : AttrVal),
        lookupA img "PK" = some (.s pid) →
        lookupA img "SK" = some (.s sk) →
        lookupA img "data_type" = some dtv →
        pid ≠ "" → sk ≠ "" → attrTruthy dtv = true →
        pyEqS dtv "trip_start" = false → pyEqS dtv "trip_end" = true →
        lookupA cp "PK" = some (.s pid) →
        lookupA cp "SK" = some (.s csk) → csk ≠ "" →
        pyEqSo (lookupA cp "data_type") "trip_start" = true →
        st.find? (isSide pid "trip_start#") = some cp →
        processRecord noF st (mkInsert img) =
            .ok (Store.deleteItem st pid sk,
              [.query pid "trip_start#", .upd pid csk, .del pid sk]) ∧
          ∀ it ∈ Store.deleteItem st pid sk, hasKeyB pid sk it = false) ∧
    (∀ (st : Store) (img cp : Item) (pid sk csk : String) (dtv : AttrVal),
        lookupA img "PK" = some (.s pid) →
        lookupA img "SK" = some (.s sk) →
        lookupA img "data_type" = some dtv →
        pid ≠ "" → sk ≠ "" → attrTruthy dtv = true →
        pyEqS dtv "trip_start" = true →
        lookupA cp "PK" = some (.s pid) →
        lookupA cp "SK" = some (.s csk) → csk ≠ "" →
        pyEqSo (lookupA cp "data_type") "trip_end" = true →
        st.find? (isSide pid "trip_end#") = some cp →
        processRecord uF st (mkInsert img) =
          .ok (st, [.query pid "trip_end#", .upd pid sk, .del pid csk])) := by
  constructor
  · intro st img cp pid sk csk dtv h1 h2 h3 hpid hsk hdtv hpyns hpye hc1 hc2
      hcsk hc3 hfind
    refine ⟨processRecord_merge_from_end st img cp pid sk csk dtv h1 h2 h3
      hpid hsk hdtv hpyns hpye hc1 hc2 hcsk hc3 hfind, ?_⟩
    intro it hit
    have h := (List.mem_filter.mp hit).2
    simpa using h
  · intro st img cp pid sk csk dtv h1 h2 h3 hpid hsk hdtv hpys hc1 hc2 hcsk
      hc3 hfind
    have hcp_ne : cp ≠ [] := ne_nil_of_lookupA _ _ _ hc1
    have hpre : ((if pyEqS dtv "trip_start" then "trip_end" else "trip_start")
        ++ "#" : String) = "trip_end#" := by
      rw [hpys]
      rfl
    simp only [processRecord, mkInsert, getS, h1, h2, h3, uF_q,
      find_counterpart_eval, hpre, hfind, hc1, hc2, eq_self_iff_true, if_true]
    rw [if_neg (by simp [hpid, hsk, hdtv])]
    rw [if_neg (by simp [hpid, hcsk])]
    rw [if_pos (by simp [hpys, hc3])]
    rw [mergePhase_uF_typed_plain _ _ _ _ _ _ hcp_ne]
    simp

/-- Witness for C1 (amended): both conjuncts at the concrete T1 rows. -/
theorem c1_witness :
    (processRecord noF [cRowStart, cRowEnd] (mkInsert cRowEnd) =
        .ok (Store.deleteItem [cRowStart, cRowEnd] "T1"
              "trip_end#2025-04-20T08:20:00",
          [.query "T1" "trip_start#",
           .upd "T1" "trip_start#2025-04-20T08:00:00",
           .del "T1" "trip_end#2025-04-20T08:20:00"])) ∧
      Store.deleteItem [cRowStart, cRowEnd] "T1"
          "trip_end#2025-04-20T08:20:00" = [cRowStart] ∧
      processRecord uF [cRowEnd, cRowStart] (mkInsert cRowStart) =
        .ok ([cRowEnd, cRowStart],
          [.query "T1" "trip_end#",
           .upd "T1" "trip_start#2025-04-20T08:00:00",
           .del "T1" "trip_end#2025-04-20T08:20:00"]) :=
  ⟨(c1_amended_update_failure.1 [cRowStart, cRowEnd] cRowEnd cRowStart "T1"
      "trip_end#2025-04-20T08:20:00" "trip_start#2025-04-20T08:00:00"
      (.s "trip_end") (by decide) (by decide) (by decide) (by decide)
      (by decide) (by decide) (by decide) (by decide) (by decide) (by decide)
      (by decide) (by decide) (by decide)).1,
   by decide,
   c1_amended_update_failure.2 [cRowEnd, cRowStart] cRowStart cRowEnd "T1"
      "trip_start#2025-04-20T08:00:00" "trip_end#2025-04-20T08:20:00"
      (.s "trip_start") (by decide) (by decide) (by decide) (by decide)
      (by decide) (by decide) (by decide) (by decide) (by decide) (by decide)
      (by decide) (by decide)⟩

/-- `find_counterpart_item` when the store query raises: the except
branch returns `None`, exactly the not-found result. -/
theorem find_counterpart_fail (st : Store) (tid : String) (dtv : AttrVal) :
    find_counterpart_item true st tid dtv =
      (none, [.query tid
        ((if pyEqS dtv "trip_start" then "trip_end" else "trip_start") ++ "#")]) :=
  rfl

/-- C2 (counterexample to the claim as stated): with the START row for
T1 present, a store-communication failure during the counterpart lookup
yields `None` — the very same result as an absent counterpart — and the
driver then completes the notification as a no-op (store unchanged, only
the query issued), rather than returning a distinguished LookupError and
marking the notification FAILED. -/
theorem c2_counterexample :
    (find_counterpart_item true [cRowStart] "T1" (.s "trip_end")).1 = none ∧
      (find_counterpart_item false [cRowStart] "T1" (.s "trip_end")).1 =
        some cRowStart ∧
      processRecord qF [cRowStart, cRowEnd] (mkInsert cRowEnd) =
        .ok ([cRowStart, cRowEnd], [.query "T1" "trip_start#"]) :=
  ⟨by decide, by decide, by decide⟩

/-- C2 (amended): the resolver collapses store-communication failure
into the not-found result — it returns `None` for every store and every
lookup when the query raises, with no retry — and the driver then treats
the notification exactly like the absent-counterpart steady state,
completing as a no-op with the store unchanged instead of marking it
FAILED. -/
theorem c2_amended_failure_collapsed :
    (∀ (st : Store) (tid : String) (dtv : AttrVal),
        (find_counterpart_item true st tid dtv).1 = none) ∧
      (∀ (st : Store) (img : Item) (pid sk : String) (dtv : AttrVal)
          (u d : Bool),
          lookupA img "PK" = some (.s pid) →
          lookupA img "SK" = some (.s sk) →
          lookupA img "data_type" = some dtv →
          pid ≠ "" → sk ≠ "" → attrTruthy dtv = true →
          processRecord ⟨true, u, d⟩ st (mkInsert img) =
            .ok (st, [.query pid
              ((if pyEqS dtv "trip_start" then "trip_end" else "trip_start")
                ++ "#")])) := by
  constructor
  · intro st tid dtv
    rfl
  · intro st img pid sk dtv u d h1 h2 h3 hpid hsk hdtv
    simp only [processRecord, mkInsert, getS, h1, h2, h3, eq_self_iff_true,
      if_true, find_counterpart_fail]
    rw [if_neg (by simp [hpid, hsk, hdtv])]

/-- Witness for C2 (amended) at a concrete store: failure-as-None plus
the no-op completion. -/
theorem c2_witness :
    (find_counterpart_item true [cRowStart] "T2" (.s "trip_end")).1 = none ∧
      processRecord ⟨true, false, false⟩ [cRowStart] (mkInsert cRowEnd) =
        .ok ([cRowStart], [.query "T1" "trip_start#"]) := by
  refine ⟨c2_amended_failure_collapsed.1 [cRowStart] "T2" (.s "trip_end"), ?_⟩
  have h := c2_amended_failure_collapsed.2 [cRowStart] cRowEnd "T1"
    "trip_end#2025-04-20T08:20:00" (.s "trip_end") false false
    (by decide) (by decide) (by decide) (by decide) (by decide) (by decide)
  exact h

/-! ### Infrastructure for C4 (idempotence) -/

theorem find?_filter_map {α : Type} (p g : α → Bool) (f : α → α) :
    ∀ (l : List α) (c : α), l.find? p = some c →
      (∀ x ∈ l, p (f x) = p x) → (∀ x ∈ l, p x = true → g (f x) = true) →
      ((l.map f).filter g).find? p = some (f c) := by
  intro l
  induction l with
  | nil =>
    intro c h _ _
    simp at h
  | cons a t ih =>
    intro c h hp hg
    by_cases hpa : p a = true
    · have hac : a = c := by
        rw [List.find?_cons_of_pos _ hpa] at h
        exact Option.some.inj h
      subst hac
      have hga : g (f a) = true := hg a (by simp) hpa
      have hpfa : p (f a) = true := by
        rw [hp a (by simp)]
        exact hpa
      simp only [List.map_cons, List.filter_cons, hga, if_true]
      exact List.find?_cons_of_pos _ hpfa
    · rw [List.find?_cons_of_neg _ (by simp [hpa])] at h
      have hpfa : ¬ p (f a) = true := by
        rw [hp a (by simp)]
        exact hpa
      have ih' := ih c h (fun x hx => hp x (by simp [hx]))
        (fun x hx => hg x (by simp [hx]))
      simp only [List.map_cons, List.filter_cons]
      by_cases hga : g (f a) = true
      · rw [if_pos hga, List.find?_cons_of_neg _ hpfa]
        exact ih'
      · rw [if_neg hga]
        exact ih'

theorem map_id_of {α : Type} (f : α → α) :
    ∀ l : List α, (∀ x ∈ l, f x = x) → l.map f = l := by
  intro l
  induction l with
  | nil => intro _; rfl
  | cons a t ih =>
    intro h
    simp only [List.map_cons, h a (by simp),
      ih (fun x hx => h x (by simp [hx]))]

theorem filter_id_of {α : Type} (g : α → Bool) :
    ∀ l : List α, (∀ x ∈ l, g x = true) → l.filter g = l := by
  intro l
  induction l with
  | nil => intro _; rfl
  | cons a t ih =>
    intro h
    simp only [List.filter_cons, h a (by simp), if_true,
      ih (fun x hx => h x (by simp [hx]))]

theorem isSide_applySets (pid pre : String) (x data : Item) :
    isSide pid pre (applySets x (buildSets data)) = isSide pid pre x := by
  unfold isSide
  rw [lookupA_merged_PK, lookupA_merged_SK]

theorem hasKeyB_applySets (a b : String) (x data : Item) :
    hasKeyB a b (applySets x (buildSets data)) = hasKeyB a b x := by
  unfold hasKeyB
  rw [lookupA_merged_PK, lookupA_merged_SK]

theorem isSide_destruct (pid pre : String) (x : Item)
    (h : isSide pid pre x = true) :
    lookupA x "PK" = some (.s pid) ∧
      ∃ xsk, lookupA x "SK" = some (.s xsk) ∧ beginsWith pre xsk = true := by
  unfold isSide at h
  rw [Bool.and_eq_true] at h
  obtain ⟨hPK, hSK⟩ := h
  refine ⟨of_decide_eq_true hPK, ?_⟩
  cases hs : lookupA x "SK" with
  | none =>
    rw [hs] at hSK
    cases hSK
  | some v =>
    cases v with
    | s w =>
      rw [hs] at hSK
      exact ⟨w, rfl, hSK⟩
    | n w =>
      rw [hs] at hSK
      cases hSK
    | bool b =>
      rw [hs] at hSK
      cases hSK
    | null =>
      rw [hs] at hSK
      cases hSK
    | other =>
      rw [hs] at hSK
      cases hSK

theorem ne_empty_of_beginsWith (pre s : String)
    (h : beginsWith pre s = true) (hp : pre.data ≠ []) : s ≠ "" := by
  intro hs
  subst hs
  unfold beginsWith at h
  cases hd : pre.data with
  | nil => exact hp hd
  | cons a t =>
    rw [hd, show ("" : String).data = [] from rfl] at h
    simp [List.isPrefixOf] at h

theorem pyEqS_not_both (v : AttrVal) :
    ¬ (pyEqS v "trip_start" = true ∧ pyEqS v "trip_end" = true) := by
  rintro ⟨hx, hy⟩
  cases v with
  | s w =>
    simp only [pyEqS, decide_eq_true_eq] at hx hy
    rw [hx] at hy
    exact absurd hy (by decide)
  | n w =>
    by_cases hw : (decParse w).isSome
    · simp [pyEqS, hw] at hx
    · have hw' : (decParse w).isSome = false := by
        rwa [Bool.not_eq_true] at hw
      simp [pyEqS, hw'] at hx hy
      rw [hx] at hy
      exact absurd hy (by decide)
  | bool b => simp [pyEqS] at hx
  | null => simp [pyEqS] at hx
  | other => simp [pyEqS] at hx

theorem updateItem_of_any (st : Store) (pk sk : String)
    (sets : List (String × AttrVal)) (hany : st.any (hasKeyB pk sk) = true) :
    Store.updateItem st pk sk sets =
      st.map (fun it => if hasKeyB pk sk it then applySets it sets else it) := by
  unfold Store.updateItem
  rw [if_pos hany]

theorem mem_updateItem (st : Store) (pk sk : String)
    (sets : List (String × AttrVal)) (x : Item)
    (hx : x ∈ Store.updateItem st pk sk sets) :
    (∃ y ∈ st, (hasKeyB pk sk y = true ∧ x = applySets y sets) ∨
        (hasKeyB pk sk y = false ∧ x = y)) ∨
      x = applySets [("PK", .s pk), ("SK", .s sk)] sets := by
  unfold Store.updateItem at hx
  by_cases hany : st.any (hasKeyB pk sk)
  · rw [if_pos hany] at hx
    obtain ⟨y, hy, hfy⟩ := List.mem_map.mp hx
    refine Or.inl ⟨y, hy, ?_⟩
    by_cases hky : hasKeyB pk sk y = true
    · exact Or.inl ⟨hky, by rw [← hfy]; simp [hky]⟩
    · have hky' : hasKeyB pk sk y = false := by
        cases hk : hasKeyB pk sk y
        · rfl
        · exact absurd hk hky
      exact Or.inr ⟨hky', by rw [← hfy]; simp [hky']⟩
  · rw [if_neg hany] at hx
    rcases List.mem_append.mp hx with hy | hy
    · have hkx : hasKeyB pk sk x = false := by
        cases hk : hasKeyB pk sk x
        · rfl
        · exact absurd (List.any_eq_true.mpr ⟨x, hy, hk⟩) hany
      exact Or.inl ⟨x, hy, Or.inr ⟨hkx, rfl⟩⟩
    · exact Or.inr (by simpa using hy)

theorem find?_map_eq {α : Type} (p : α → Bool) (f : α → α) :
    ∀ (l : List α) (c : α), l.find? p = some c →
      (∀ x ∈ l, p (f x) = p x) → (l.map f).find? p = some (f c) := by
  intro l
  induction l with
  | nil =>
    intro c h _
    simp at h
  | cons a t ih =>
    intro c h hp
    by_cases hpa : p a = true
    · have hac : a = c := by
        rw [List.find?_cons_of_pos _ hpa] at h
        exact Option.some.inj h
      subst hac
      have hpfa : p (f a) = true := by
        rw [hp a (by simp)]
        exact hpa
      simp only [List.map_cons]
      exact List.find?_cons_of_pos _ hpfa
    · rw [List.find?_cons_of_neg _ (by simp [hpa])] at h
      have hpfa : ¬ p (f a) = true := by
        rw [hp a (by simp)]
        exact hpa
      simp only [List.map_cons]
      rw [List.find?_cons_of_neg _ (by simp [hpfa])]
      exact ih c h (fun x hx => hp x (by simp [hx]))

theorem find?_append_left {α : Type} (p : α → Bool) :
    ∀ (l₁ l₂ : List α) (c : α), l₁.find? p = some c →
      (l₁ ++ l₂).find? p = some c := by
  intro l₁
  induction l₁ with
  | nil =>
    intro l₂ c h
    simp at h
  | cons a t ih =>
    intro l₂ c h
    by_cases hpa : p a = true
    · rw [List.find?_cons_of_pos _ hpa] at h
      simp only [List.cons_append]
      rw [List.find?_cons_of_pos _ hpa]
      exact h
    · rw [List.find?_cons_of_neg _ (by simp [hpa])] at h
      simp only [List.cons_append]
      rw [List.find?_cons_of_neg _ (by simp [hpa])]
      exact ih l₂ c h

/-- `update_item` with the same key and the same `SET` clauses is
idempotent: re-applying the update changes nothing, whether the first
application updated an existing row or created one. -/
theorem updateItem_idem (st : Store) (pk sk : String) (data : Item) :
    Store.updateItem (Store.updateItem st pk sk (buildSets data)) pk sk
        (buildSets data) =
      Store.updateItem st pk sk (buildSets data) := by
  by_cases hany : st.any (hasKeyB pk sk) = true
  · obtain ⟨w, hw, hkw⟩ := List.any_eq_true.mp hany
    have hstep : Store.updateItem st pk sk (buildSets data) =
        st.map (fun it => if hasKeyB pk sk it then
          applySets it (buildSets data) else it) :=
      updateItem_of_any st pk sk _ hany
    have hany2 : (Store.updateItem st pk sk (buildSets data)).any
        (hasKeyB pk sk) = true := by
      rw [hstep]
      refine List.any_eq_true.mpr ⟨_, List.mem_map_of_mem _ hw, ?_⟩
      simp only [hkw, if_true, hasKeyB_applySets]
    rw [updateItem_of_any _ pk sk _ hany2]
    apply map_id_of
    intro x hx
    rw [hstep] at hx
    obtain ⟨y, hy, rfl⟩ := List.mem_map.mp hx
    by_cases hky : hasKeyB pk sk y = true
    · simp only [hky, if_true, hasKeyB_applySets]
      exact applySets_applySets _ _ (buildSets_keys_nodup _)
    · simp [hky]
  · have hstep : Store.updateItem st pk sk (buildSets data) =
        st ++ [applySets [("PK", .s pk), ("SK", .s sk)] (buildSets data)] := by
      unfold Store.updateItem
      rw [if_neg hany]
    have hkrow : hasKeyB pk sk
        (applySets [("PK", .s pk), ("SK", .s sk)] (buildSets data)) = true := by
      rw [hasKeyB_applySets]
      simp [hasKeyB, lookupA]
    have hany2 : (st ++ [applySets [("PK", .s pk), ("SK", .s sk)]
        (buildSets data)]).any (hasKeyB pk sk) = true := by
      rw [List.any_append]
      simp [hkrow]
    rw [hstep, updateItem_of_any _ pk sk _ hany2]
    apply map_id_of
    intro x hx
    rcases List.mem_append.mp hx with hxs | hxr
    · have hkx : hasKeyB pk sk x = false := by
        cases hk : hasKeyB pk sk x
        · rfl
        · exact absurd (List.any_eq_true.mpr ⟨x, hxs, hk⟩) hany
      simp [hkx]
    · have hxr2 : x = applySets [("PK", .s pk), ("SK", .s sk)]
          (buildSets data) := by
        simpa using hxr
      subst hxr2
      simp only [hkrow, if_true]
      exact applySets_applySets _ _ (buildSets_keys_nodup _)

/-- C4: processing the same INSERT notification twice — redelivery,
starting from the store state the first processing produced — yields the
same store state as processing it once.  The hypotheses are the data
model's invariants: the row's own sort key is consistent with its side
tag (`hA1`/`hA2`), and at most one record per (entity, side) pair is in
the store (`hUs`/`hUe`).  On redelivery: the guard, the counterpart
query and the role checks resolve exactly as on first delivery; a
START-side redelivery re-finds the untouched END counterpart — the first
delivery's delete of it raised on the malformed counterpart key — and
re-runs the identical `SET` update, changing no row; an END-side
redelivery re-finds the unmerged START counterpart — the first
delivery's update of it raised on the malformed key — and re-deletes the
record's own already-deleted key, which the store (like DynamoDB) treats
as a successful no-op rather than an error. -/
theorem c4_idempotence
    (st : Store) (img : Item) (pid sk : String) (dtv : AttrVal)
    (h1 : lookupA img "PK" = some (.s pid))
    (h2 : lookupA img "SK" = some (.s sk))
    (h3 : lookupA img "data_type" = some dtv)
    (hA1 : pyEqS dtv "trip_start" = true → beginsWith "trip_end#" sk = false)
    (hA2 : pyEqS dtv "trip_end" = true → beginsWith "trip_start#" sk = false)
    (hUs : ∀ x ∈ st, ∀ y ∈ st, isSide pid "trip_start#" x = true →
      isSide pid "trip_start#" y = true → x = y)
    (hUe : ∀ x ∈ st, ∀ y ∈ st, isSide pid "trip_end#" x = true →
      isSide pid "trip_end#" y = true → x = y) :
    runRecords noF (runRecords noF st [mkInsert img]) [mkInsert img] =
      runRecords noF st [mkInsert img] := by
  by_cases hg : pid = "" ∨ sk = "" ∨ attrTruthy dtv = false
  · have h0 := processRecord_guard_fail noF st img pid sk dtv h1 h2 h3 hg
    simp [runRecords, h0]
  · push_neg at hg
    obtain ⟨hpid, hsk, hdtv'⟩ := hg
    have hdtv : attrTruthy dtv = true := by
      cases hb : attrTruthy dtv
      · exact absurd hb hdtv'
      · rfl
    by_cases hpys : pyEqS dtv "trip_start" = true
    · -- START-side record: the counterpart query prefix is "trip_end#"
      have hpre : ((if pyEqS dtv "trip_start" then "trip_end" else
          "trip_start") ++ "#" : String) = "trip_end#" := by
        rw [hpys]
        rfl
      cases hfc : st.find? (isSide pid "trip_end#") with
      | none =>
        have h0 := processRecord_nf st img pid sk dtv h1 h2 h3 hpid hsk hdtv
          (by rw [hpre]; exact hfc)
        simp [runRecords, h0]
      | some cp =>
        have hcpmem : cp ∈ st := List.mem_of_find?_eq_some hfc
        have hcpside : isSide pid "trip_end#" cp = true := List.find?_some hfc
        obtain ⟨hc1, csk, hc2, hcb⟩ := isSide_destruct _ _ _ hcpside
        have hcsk : csk ≠ "" := ne_empty_of_beginsWith _ _ hcb (by decide)
        by_cases hrole : pyEqSo (lookupA cp "data_type") "trip_end" = true
        · -- the merge fires: the START row is updated in place while the
          -- END counterpart survives (its delete raised on the malformed
          -- key); redelivery re-finds it and re-writes identical values
          have h0 := processRecord_merge_from_start st img cp pid sk csk dtv
            h1 h2 h3 hpid hsk hdtv hpys hc1 hc2 hcsk hrole hfc
          have hskne : csk ≠ sk := by
            intro h
            rw [h] at hcb
            rw [hA1 hpys] at hcb
            cases hcb
          have hkcp : hasKeyB pid sk cp = false := by
            rw [hasKeyB_eval pid sk cp pid csk hc1 hc2]
            simp [hskne]
          have hfind2 : (Store.updateItem st pid sk
              (buildSets (setA cp "status" (.s "completed")))).find?
              (isSide pid "trip_end#") = some cp := by
            unfold Store.updateItem
            by_cases hany : st.any (hasKeyB pid sk) = true
            · rw [if_pos hany]
              have hstep := find?_map_eq (isSide pid "trip_end#")
                (fun it => if hasKeyB pid sk it then
                  applySets it (buildSets (setA cp "status" (.s "completed")))
                  else it)
                st cp hfc (by
                  intro x hx
                  by_cases hk : hasKeyB pid sk x = true
                  · simp [hk, isSide_applySets]
                  · simp [hk])
              have hfcp : (fun it => if hasKeyB pid sk it then
                  applySets it (buildSets (setA cp "status" (.s "completed")))
                  else it) cp = cp := by
                simp [hkcp]
              rw [hfcp] at hstep
              exact hstep
            · rw [if_neg hany]
              exact find?_append_left _ st _ cp hfc
          have h0' := processRecord_merge_from_start
            (Store.updateItem st pid sk
              (buildSets (setA cp "status" (.s "completed"))))
            img cp pid sk csk dtv h1 h2 h3 hpid hsk hdtv hpys hc1 hc2 hcsk
            hrole hfind2
          have hidem := updateItem_idem st pid sk
            (setA cp "status" (.s "completed"))
          simp only [runRecords, h0, h0', hidem]
        · -- counterpart found but inconsistent: no roles, no mutation
          have h0 := processRecord_roles_fail st img cp pid sk csk dtv
            h1 h2 h3 hpid hsk hdtv hc1 hc2 hcsk (by rw [hpre]; exact hfc)
            (fun hr => hrole hr.2)
            (fun hr => pyEqS_not_both dtv ⟨hpys, hr.1⟩)
          simp [runRecords, h0]
    · -- not START-side: the counterpart query prefix is "trip_start#"
      have hpyn : pyEqS dtv "trip_start" = false := by
        cases hb : pyEqS dtv "trip_start"
        · rfl
        · exact absurd hb hpys
      have hpre : ((if pyEqS dtv "trip_start" then "trip_end" else
          "trip_start") ++ "#" : String) = "trip_start#" := by
        rw [hpyn]
        rfl
      cases hfc : st.find? (isSide pid "trip_start#") with
      | none =>
        have h0 := processRecord_nf st img pid sk dtv h1 h2 h3 hpid hsk hdtv
          (by rw [hpre]; exact hfc)
        simp [runRecords, h0]
      | some cp =>
        have hcpmem : cp ∈ st := List.mem_of_find?_eq_some hfc
        have hcpside : isSide pid "trip_start#" cp = true := List.find?_some hfc
        obtain ⟨hc1, csk, hc2, hcb⟩ := isSide_destruct _ _ _ hcpside
        have hcsk : csk ≠ "" := ne_empty_of_beginsWith _ _ hcb (by decide)
        by_cases hpye : pyEqS dtv "trip_end" = true
        · by_cases hrole : pyEqSo (lookupA cp "data_type") "trip_start" = true
          · -- the END-side merge fires: the START counterpart is never
            -- touched (its update raised on the malformed key), the END
            -- row is deleted; redelivery re-finds the counterpart and
            -- re-deletes the already-absent key
            have h0 := processRecord_merge_from_end st img cp pid sk csk dtv
              h1 h2 h3 hpid hsk hdtv hpyn hpye hc1 hc2 hcsk hrole hfc
            have hskne : csk ≠ sk := by
              intro h
              rw [h] at hcb
              rw [hA2 hpye] at hcb
              cases hcb
            have hfind2 : (Store.deleteItem st pid sk).find?
                (isSide pid "trip_start#") = some cp := by
              have hstep := find?_filter_map (isSide pid "trip_start#")
                (fun it => ! hasKeyB pid sk it) id st cp hfc
                (fun x hx => rfl)
                (by
                  intro x hx hpx
                  have hxcp : x = cp := hUs x hx cp hcpmem hpx hcpside
                  subst hxcp
                  have hk : hasKeyB pid sk x = false := by
                    rw [hasKeyB_eval pid sk x pid csk hc1 hc2]
                    simp [hskne]
                  simp [hk])
              simpa [Store.deleteItem, List.map_id] using hstep
            have h0' := processRecord_merge_from_end
              (Store.deleteItem st pid sk) img cp pid sk csk dtv
              h1 h2 h3 hpid hsk hdtv hpyn hpye hc1 hc2 hcsk hrole hfind2
            have hdel2 : Store.deleteItem (Store.deleteItem st pid sk) pid sk =
                Store.deleteItem st pid sk := by
              unfold Store.deleteItem
              apply filter_id_of
              intro x hx
              exact (List.mem_filter.mp hx).2
            simp only [runRecords, h0, h0', hdel2]
          · have h0 := processRecord_roles_fail st img cp pid sk csk dtv
              h1 h2 h3 hpid hsk hdtv hc1 hc2 hcsk (by rw [hpre]; exact hfc)
              (fun hr => by rw [hpyn] at hr; cases hr.1)
              (fun hr => hrole hr.2)
            simp [runRecords, h0]
        · have hpyen : pyEqS dtv "trip_end" = false := by
            cases hb : pyEqS dtv "trip_end"
            · rfl
            · exact absurd hb hpye
          have h0 := processRecord_roles_fail st img cp pid sk csk dtv
            h1 h2 h3 hpid hsk hdtv hc1 hc2 hcsk (by rw [hpre]; exact hfc)
            (fun hr => by rw [hpyn] at hr; cases hr.1)
            (fun hr => by rw [hpyen] at hr; cases hr.1)
          simp [runRecords, h0]

/-- Witness for C4: redelivering the END INSERT for T1 after the merge
completed changes nothing. -/
theorem c4_witness :
    runRecords noF (runRecords noF [cRowStart] [mkInsert cRowEnd])
        [mkInsert cRowEnd] =
      runRecords noF [cRowStart] [mkInsert cRowEnd] :=
  c4_idempotence [cRowStart] cRowEnd "T1" "trip_end#2025-04-20T08:20:00"
    (.s "trip_end") (by decide) (by decide) (by decide) (by decide)
    (by decide) (by decide) (by decide)

end TripProc
